import Mathlib

/-!
# Verification of Vayesta orchestration-layer claims

A shallow embedding, in Lean 4, of the pieces of the Vayesta repository
that the specification talks about:

* `vayesta/solver/__init__.py` — solver class dispatch (`get_solver_class`);
* `vayesta/solver/solver.py` — `ClusterSolver` state (`reset`, `make_rdm1`,
  `make_rdm2`) and the chemical-potential optimization installed by
  `optimize_cpt`;
* `vayesta/mpi/scf.py` — `scf_with_mpi` / `mpi_kernel` SCF broadcasting;
* `vayesta/core/fragmentation/iao.py` — IAO orbital construction
  (`get_coeff`, `get_virtual_coeff`);
* `statistics/analysis_tools/plot_stats.py` — traffic-statistics script.

External library behaviour (Python `datetime.strptime`, `os.remove`,
`scipy.optimize.brentq`, `numpy.linalg.eigh`, the pyscf SCF kernel) is
modelled explicitly; numerical linear algebra is treated over an arbitrary
`Field`, with eigendecompositions supplied as oracles together with the
hypotheses that make them eigendecompositions.
-/

set_option autoImplicit false

open Matrix

namespace Vayesta

/-! ## `vayesta/solver/__init__.py`: `get_solver_class` -/

/-- The three solver classes that `get_solver_class` can return
(`CCSDSolver` from `solver_cc`, `FCISolver` from `solver_fci`,
`EBFCISolver` from `solver_ebfci`). -/
inductive SolverClass where
  | CCSDSolver
  | FCISolver
  | EBFCISolver
  deriving DecidableEq, Repr

/-- `get_solver_class(solver)` from `vayesta/solver/__init__.py`:
dispatch on `solver.upper()`, raising `NotImplementedError` (modelled as
`Except.error`) for unknown strings.  Python's `str.upper` is modelled by
`String.toUpper`. -/
def get_solver_class (solver : String) : Except String SolverClass :=
  if solver.toUpper = "CCSD" ∨ solver.toUpper = "CCSD(T)" ∨ solver.toUpper = "TCCSD" then
    .ok .CCSDSolver
  else if solver.toUpper = "FCI" then
    .ok .FCISolver
  else if solver.toUpper = "EBFCI" then
    .ok .EBFCISolver
  else
    .error ("Unknown solver " ++ solver)

/-! ## `vayesta/solver/solver.py`: `ClusterSolver` result state

`reset`, `make_rdm1` and `make_rdm2` only touch the result attributes set
up in `ClusterSolver.__init__`; we model exactly those attributes.  The
wavefunction is abstract: all that matters for the claims is which
wavefunction object the density-matrix calls delegate to. -/

/-- An abstract converged wavefunction: `make_rdm1` / `make_rdm2` are
opaque payloads standing for the bound methods `wf.make_rdm1` /
`wf.make_rdm2` of the chemistry engine. -/
structure WaveFunction (R1 R2 : Type) where
  make_rdm1 : R1
  make_rdm2 : R2
  deriving DecidableEq, Repr

/-- The mutable attributes of a `ClusterSolver` instance written by
`__init__` (`v_ext`, `converged`, `e_corr`, `wf`, `dm1`, `dm2`);
`V` abstracts the external-potential payload, `R1`/`R2` the density
matrices. -/
structure ClusterSolverState (V R1 R2 : Type) where
  v_ext : Option V
  converged : Bool
  e_corr : ℚ
  wf : Option (WaveFunction R1 R2)
  dm1 : Option R1
  dm2 : Option R2
  deriving DecidableEq, Repr

variable {V R1 R2 : Type}

/-- `ClusterSolver.reset` (solver.py lines 135-139): sets `converged`,
`e_corr`, `dm1`, `dm2`; assigns nothing else. -/
def ClusterSolverState.reset (s : ClusterSolverState V R1 R2) :
    ClusterSolverState V R1 R2 :=
  { s with converged := false, e_corr := 0, dm1 := none, dm2 := none }

/-- `ClusterSolver.make_rdm1` (solver.py lines 141-143): delegates to
`self.wf.make_rdm1`; when `wf` is `None` the attribute access raises
`AttributeError` (modelled as `Except.error`). -/
def ClusterSolverState.solver_make_rdm1 (s : ClusterSolverState V R1 R2) :
    Except String R1 :=
  match s.wf with
  | some w => .ok w.make_rdm1
  | none => .error "AttributeError"

/-- `ClusterSolver.make_rdm2` (solver.py lines 145-147): delegates to
`self.wf.make_rdm2`. -/
def ClusterSolverState.solver_make_rdm2 (s : ClusterSolverState V R1 R2) :
    Except String R2 :=
  match s.wf with
  | some w => .ok w.make_rdm2
  | none => .error "AttributeError"

/-! ## `vayesta/mpi/scf.py`: `scf_with_mpi` and `mpi_kernel`

The mean-field object is modelled by the attributes that `mpi_kernel`
reads and writes (`converged`, `e_tot`, `mo_energy`, `mo_occ`,
`mo_coeff`, `with_df._cderi`, `with_df.auxcell`), plus the `kernel`
attribute replaced by `scf_with_mpi` and the `with_mpi` marker it adds.
Numerical payloads are rationals/lists of rationals; nothing in the
claims depends on their inner structure. -/

/-- The density-fitting helper `mf.with_df`: `auxcell` records whether
the auxiliary cell has been built (`None` in pyscf before `build`),
`_cderi` the cached three-center integrals. -/
structure DFState where
  auxcell : Bool
  _cderi : Option (List ℚ)
  deriving DecidableEq, Repr

/-- The mean-field attributes handled by `scf.py`.  `K` abstracts the
`kernel` bound-method payload, so that replacing the kernel is visible as
an attribute update. -/
structure MeanField (K : Type) where
  kernel : K
  with_mpi : Option Bool
  converged : Bool
  e_tot : ℚ
  mo_energy : List ℚ
  mo_occ : List ℚ
  mo_coeff : List (List ℚ)
  with_df : Option DFState
  deriving DecidableEq, Repr

variable {K : Type}

/-- `scf_with_mpi(mpi, mf, ...)` (scf.py lines 9-74): with a falsy `mpi`
it returns `mf` untouched; otherwise it rebinds `mf.kernel` to the
`mpi_kernel` closure (abstracted as `wrap mf.kernel`) and sets
`mf.with_mpi = True`, assigning no other attribute. -/
def scf_with_mpi (mpi : Bool) (wrap : K → K) (mf : MeanField K) : MeanField K :=
  if mpi then { mf with kernel := wrap mf.kernel, with_mpi := some true }
  else mf

/-- The SCF data produced by running the original `mf.kernel` on one
rank: the post-kernel mean-field attributes together with the kernel's
return value.  This is the oracle standing for the pyscf SCF driver. -/
structure SCFOracle (K : Type) where
  run : MeanField K → MeanField K × ℚ

/-- The pre-barrier ("local") phase of `mpi_kernel` (scf.py lines 19-31)
on rank `r`: the master rank `root` runs the original kernel; every other
rank leaves the SCF attributes alone and only builds the auxiliary cell
of `with_df` when it is absent (`build(with_j3c=False)`), returning no
kernel result. -/
def mpi_kernel_local (scf : SCFOracle K) (root r : ℕ) (mf : MeanField K) :
    MeanField K × Option ℚ :=
  if r = root then
    let out := scf.run mf
    (out.1, some out.2)
  else
    let mf' :=
      match mf.with_df with
      | some df => if df.auxcell then mf else { mf with with_df := some { df with auxcell := true } }
      | none => mf
    (mf', none)

/-- The broadcast phase of `mpi_kernel` (scf.py lines 33-43) on one rank:
overwrite `converged`, `e_tot`, `mo_energy`, `mo_occ`, `mo_coeff` (and
`with_df._cderi` when the rank has a `with_df`) with the master's values,
and replace the local kernel result by the broadcast one. -/
def mpi_kernel_bcast (master : MeanField K) (res_master : Option ℚ)
    (mf : MeanField K) : MeanField K × Option ℚ :=
  let mf' := { mf with
    converged := master.converged
    e_tot := master.e_tot
    mo_energy := master.mo_energy
    mo_occ := master.mo_occ
    mo_coeff := master.mo_coeff
    with_df :=
      match mf.with_df with
      | some df =>
          some { df with _cderi := match master.with_df with
                                   | some mdf => mdf._cderi
                                   | none => df._cderi }
      | none => none }
  (mf', res_master)

/-- One collective execution of `mpi_kernel` across `n` ranks (SPMD, with
the `mpi.world.barrier()` separating the two phases): every rank runs the
local phase on its own mean-field state, then receives the master's
results by broadcast.  Returns each rank's final mean-field state and
kernel return value. -/
def mpi_kernel_step (scf : SCFOracle K) (root : ℕ) (states : ℕ → MeanField K)
    (r : ℕ) : MeanField K × Option ℚ :=
  let masterLocal := mpi_kernel_local scf root root (states root)
  let local_r := mpi_kernel_local scf root r (states r)
  mpi_kernel_bcast masterLocal.1 masterLocal.2 local_r.1

/-! ## `vayesta/solver/solver.py`: `optimize_cpt` and the installed `kernel`

The replacement kernel installed by `ClusterSolver.optimize_cpt`
(solver.py lines 194-305) is modelled as an exception-plus-state
computation.  The underlying cluster solver (`kernel_orig` plus
`self.wf.make_rdm1` and the projector contraction giving the fragment
electron number) is a chemistry-engine oracle: for each chemical
potential `cpt` it either fails to converge or yields a fragment electron
number `ne cpt`.  `scipy.optimize.brentq` is modelled as: evaluate the
function at both bracket ends, raise `ValueError` when they have the same
(nonzero) sign, otherwise keep evaluating at interior points (an oracle
sequence) and report convergence.  Exceptions carry the state because the
Python closure mutates its `nonlocal` variables before raising. -/

/-- The exceptions appearing in the installed kernel: the internal
`CptFound` signal, `ConvergenceError` from the solver, `ValueError` from
`brentq` (root not bracketed) and `RuntimeError`. -/
inductive CptExc where
  | cptFound
  | convergenceError
  | valueError
  | runtimeError
  deriving DecidableEq, Repr

/-- The `nonlocal` state of the closure `electron_err` (`err`, `err0`,
`cpt_opt`, `iterations`), plus a ghost counter `nbrentq` recording how
many times `scipy.optimize.brentq` has been invoked. -/
structure CptState where
  err : Option ℚ
  err0 : Option ℚ
  cpt_opt : Option ℚ
  iterations : ℕ
  nbrentq : ℕ
  deriving DecidableEq, Repr

/-- The arguments of `optimize_cpt(nelectron, c_frag, cpt_guess, atol,
rtol, cpt_radius)` that the installed kernel closes over. -/
structure CptProblem where
  nelectron : ℚ
  atol : ℚ
  rtol : ℚ
  cpt_guess : ℚ
  cpt_radius : ℚ
  deriving DecidableEq, Repr

/-- Chemistry-engine oracle for the cluster solver under a shifted
external potential `v_ext - cpt * p_frag`: `conv cpt` says whether
`kernel_orig` converges there, and `ne cpt` is the fragment electron
number `einsum('xi,ij,xj->', p_frag, wf.make_rdm1(), p_frag)` of the
converged wavefunction. -/
structure CptOracle where
  conv : ℚ → Bool
  ne : ℚ → ℚ

/-- The electron-number tolerance `atol + rtol*nelectron` of the check
`abs(err) < (atol + rtol*nelectron)` (solver.py line 242). -/
def cptTol (P : CptProblem) : ℚ := P.atol + P.rtol * P.nelectron

/-- Body of `electron_err(cpt)` past the `cpt == 0` shortcut (solver.py
lines 213-248): run the solver, raise `ConvergenceError` if it did not
converge, record the error `ne_frag - nelectron` and bump `iterations`,
and raise `CptFound` with `cpt_opt = cpt` when the error is within
tolerance. -/
def electron_err_core (P : CptProblem) (O : CptOracle) (cpt : ℚ)
    (st : CptState) : Except (CptExc × CptState) (ℚ × CptState) :=
  if O.conv cpt then
    if |O.ne cpt - P.nelectron| < cptTol P then
      .error (.cptFound,
        { st with err := some (O.ne cpt - P.nelectron),
                  iterations := st.iterations + 1, cpt_opt := some cpt })
    else
      .ok (O.ne cpt - P.nelectron,
        { st with err := some (O.ne cpt - P.nelectron),
                  iterations := st.iterations + 1 })
  else
    .error (.convergenceError, st)

/-- `electron_err(cpt)` (solver.py lines 206-248), including the shortcut
`if (cpt == 0) and (err0 is not None): return err0` that avoids
recomputing the `cpt = 0` point. -/
def electron_err (P : CptProblem) (O : CptOracle) (cpt : ℚ)
    (st : CptState) : Except (CptExc × CptState) (ℚ × CptState) :=
  match st.err0 with
  | some e0 => if cpt = 0 then .ok (e0, st) else electron_err_core P O cpt st
  | none => electron_err_core P O cpt st

/-- Sequential evaluation of `electron_err` at a list of points,
propagating exceptions; stands for the interior evaluations that
`scipy.optimize.brentq` performs inside the bracket. -/
def cptEvalSeq (P : CptProblem) (O : CptOracle) :
    List ℚ → CptState → Except (CptExc × CptState) CptState
  | [], st => .ok st
  | p :: ps, st =>
    match electron_err P O p st with
    | .error es => .error es
    | .ok (_, st') => cptEvalSeq P O ps st'

/-- Model of `scipy.optimize.brentq(electron_err, a, b, full_output=True)`
(solver.py line 280): evaluate at `a` and `b` first; if either endpoint
is an exact root return it as converged; if the endpoint values have the
same sign raise `ValueError`; otherwise evaluate at the oracle's interior
points `pts` and return a converged root.  Exceptions raised by the
evaluated function propagate. -/
def cptBrentq (P : CptProblem) (O : CptOracle) (a b : ℚ) (pts : List ℚ)
    (st : CptState) : Except (CptExc × CptState) ((ℚ × Bool) × CptState) :=
  match electron_err P O a st with
  | .error es => .error es
  | .ok (fa, st1) =>
    match electron_err P O b st1 with
    | .error es => .error es
    | .ok (fb, st2) =>
      if fa * fb > 0 then .error (.valueError, st2)
      else if fa = 0 then .ok ((a, true), st2)
      else if fb = 0 then .ok ((b, true), st2)
      else
        match cptEvalSeq P O pts st2 with
        | .error es => .error es
        | .ok st3 => .ok ((pts.getLastD a, true), st3)

/-- The `for ntry in range(5)` retry loop of the installed kernel
(solver.py lines 278-302), recursing on the number of remaining tries:
`CptFound` breaks out and returns (`result` is always `None`);
`ValueError` doubles both interval bounds (`bounds *= 2`);
`ConvergenceError` halves them (`bounds /= 2`); a normal `brentq` return
raises `RuntimeError` (converged without reaching the tolerance, or the
invalid-state fall-through); an exhausted loop raises `RuntimeError`
("Could not find chemical potential within interval").  `pts i` is the
interior-point oracle for the `i`-th remaining-tries count. -/
def cptTryLoop (P : CptProblem) (O : CptOracle) (pts : ℕ → List ℚ) :
    ℕ → ℚ × ℚ → CptState → Except (CptExc × CptState) (Option Unit × CptState)
  | 0, _, st => .error (.runtimeError, st)
  | n + 1, (a, b), st =>
    match cptBrentq P O a b (pts n) { st with nbrentq := st.nbrentq + 1 } with
    | .ok (_, st') => .error (.runtimeError, st')
    | .error (.cptFound, st') => .ok (none, st')
    | .error (.valueError, st') => cptTryLoop P O pts n (2 * a, 2 * b) st'
    | .error (.convergenceError, st') => cptTryLoop P O pts n (a / 2, b / 2) st'
    | .error (e, st') => .error (e, st')

/-- The kernel installed by `optimize_cpt` (solver.py lines 194-305):
first evaluate `electron_err(cpt_guess)` — a `CptFound` there returns
immediately; otherwise choose the initial bracket from the sign of the
error (`[cpt_guess, cpt_guess+cpt_radius]` when too few electrons,
`[cpt_guess-cpt_radius, cpt_guess]` when too many) and run the retry
loop. -/
def cptKernel (P : CptProblem) (O : CptOracle) (pts : ℕ → List ℚ) :
    Except (CptExc × CptState) (Option Unit × CptState) :=
  match electron_err P O P.cpt_guess ⟨none, none, none, 0, 0⟩ with
  | .error (.cptFound, st) => .ok (none, st)
  | .error es => .error es
  | .ok (e0, st) =>
    cptTryLoop P O pts 5
      (if e0 < 0 then (P.cpt_guess, P.cpt_guess + P.cpt_radius)
       else (P.cpt_guess - P.cpt_radius, P.cpt_guess))
      { st with err0 := some e0 }

/-- Final `CptState` of a kernel run, whether it returned or raised. -/
def cptFinalState : Except (CptExc × CptState) (Option Unit × CptState) → CptState
  | .ok (_, st) => st
  | .error (_, st) => st

/-! ## `statistics/analysis_tools/plot_stats.py`: `remove_time_information`

`datetime.datetime.strptime(date_string, "%Y-%m-%dT%H:%M:%SZ")` is
modelled after CPython's `_strptime`: the format compiles to the regex
`(?P<Y>\d\d\d\d)-(?P<m>1[0-2]|0[1-9]|[1-9])-(?P<d>3[01]|[12]\d|0[1-9]|[1-9])T`
`(?P<H>2[0-3]|[0-1]\d|\d):(?P<M>[0-5]\d|\d):(?P<S>6[0-1]|[0-5]\d|\d)Z`,
compiled with `IGNORECASE` (so the literals `T`/`Z` also match `t`/`z`),
anchored at the start, with leftover input rejected ("unconverted data
remains"); the `datetime` constructor then validates the calendar date
and requires seconds below 60.  Alternations are matched in order with
backtracking, which the continuation-passing `tryAlts` reproduces.
`date.strftime("%Y-%m-%d")` is modelled with zero-padded fields (the
format documented by the script; platform `strftime` may drop padding on
years below 1000). -/

/-- Numeric value of a decimal digit character. -/
def toDigit (c : Char) : ℕ := c.toNat - 48

/-- A two-digit regex alternative `p1 p2` (e.g. `1[0-2]`): match two
characters and combine them into one number. -/
def alt2 (p1 p2 : Char → Bool) : List Char → Option (ℕ × List Char)
  | a :: b :: rest => if p1 a && p2 b then some (toDigit a * 10 + toDigit b, rest) else none
  | _ => none

/-- A one-digit regex alternative (e.g. `[1-9]`). -/
def alt1 (p : Char → Bool) : List Char → Option (ℕ × List Char)
  | a :: rest => if p a then some (toDigit a, rest) else none
  | _ => none

/-- Character range test `lo ≤ c ≤ hi`. -/
def chBetween (lo hi c : Char) : Bool := lo ≤ c && c ≤ hi

/-- `%Y`: exactly four digits (`\d\d\d\d`). -/
def yearAlts : List Char → List (ℕ × List Char)
  | a :: b :: c :: d :: rest =>
    if a.isDigit && b.isDigit && c.isDigit && d.isDigit then
      [(((toDigit a * 10 + toDigit b) * 10 + toDigit c) * 10 + toDigit d, rest)]
    else []
  | _ => []

/-- `%m`: `1[0-2]|0[1-9]|[1-9]`, alternatives in regex order. -/
def monthAlts (cs : List Char) : List (ℕ × List Char) :=
  [alt2 (· = '1') (chBetween '0' '2') cs,
   alt2 (· = '0') (chBetween '1' '9') cs,
   alt1 (chBetween '1' '9') cs].filterMap id

/-- `%d`: `3[01]|[12]\d|0[1-9]|[1-9]`. -/
def dayAlts (cs : List Char) : List (ℕ × List Char) :=
  [alt2 (· = '3') (chBetween '0' '1') cs,
   alt2 (chBetween '1' '2') Char.isDigit cs,
   alt2 (· = '0') (chBetween '1' '9') cs,
   alt1 (chBetween '1' '9') cs].filterMap id

/-- `%H`: `2[0-3]|[0-1]\d|\d`. -/
def hourAlts (cs : List Char) : List (ℕ × List Char) :=
  [alt2 (· = '2') (chBetween '0' '3') cs,
   alt2 (chBetween '0' '1') Char.isDigit cs,
   alt1 Char.isDigit cs].filterMap id

/-- `%M`: `[0-5]\d|\d`. -/
def minuteAlts (cs : List Char) : List (ℕ × List Char) :=
  [alt2 (chBetween '0' '5') Char.isDigit cs,
   alt1 Char.isDigit cs].filterMap id

/-- `%S`: `6[0-1]|[0-5]\d|\d`. -/
def secondAlts (cs : List Char) : List (ℕ × List Char) :=
  [alt2 (· = '6') (chBetween '0' '1') cs,
   alt2 (chBetween '0' '5') Char.isDigit cs,
   alt1 Char.isDigit cs].filterMap id

/-- Try the alternatives of one field in order, backtracking into the
continuation: the first alternative whose continuation succeeds wins. -/
def tryAlts {α : Type} (alts : List (ℕ × List Char)) (k : ℕ → List Char → Option α) :
    Option α :=
  match alts with
  | [] => none
  | (v, rest) :: more =>
    match k v rest with
    | some r => some r
    | none => tryAlts more k

/-- A literal character of the format, matched case-insensitively
(`IGNORECASE`). -/
def matchLit (c : Char) : List Char → Option (List Char)
  | x :: rest => if x.toLower = c.toLower then some rest else none
  | _ => none

/-- The regex match of `"%Y-%m-%dT%H:%M:%SZ"` against the whole input:
returns the captured `(year, month, day, hour, minute, second)` or
`none` (→ `ValueError: time data does not match format` /
`unconverted data remains`). -/
def strptimeMatch (cs : List Char) : Option (ℕ × ℕ × ℕ × ℕ × ℕ × ℕ) :=
  tryAlts (yearAlts cs) fun y r1 =>
  (matchLit '-' r1).bind fun r2 =>
  tryAlts (monthAlts r2) fun mo r3 =>
  (matchLit '-' r3).bind fun r4 =>
  tryAlts (dayAlts r4) fun d r5 =>
  (matchLit 'T' r5).bind fun r6 =>
  tryAlts (hourAlts r6) fun h r7 =>
  (matchLit ':' r7).bind fun r8 =>
  tryAlts (minuteAlts r8) fun mi r9 =>
  (matchLit ':' r9).bind fun r10 =>
  tryAlts (secondAlts r10) fun sec r11 =>
  (matchLit 'Z' r11).bind fun r12 =>
  if r12 = [] then some (y, mo, d, h, mi, sec) else none

/-- Gregorian leap year, as in `datetime`. -/
def isLeap (y : ℕ) : Bool := y % 4 = 0 && (y % 100 ≠ 0 || y % 400 = 0)

/-- Days in a month, as validated by the `datetime` constructor. -/
def daysInMonth (y m : ℕ) : ℕ :=
  if m = 2 then (if isLeap y then 29 else 28)
  else if m = 4 ∨ m = 6 ∨ m = 9 ∨ m = 11 then 30
  else 31

/-- `datetime.datetime.strptime(s, "%Y-%m-%dT%H:%M:%SZ")`: the regex
match followed by the `datetime` constructor's validation (`MINYEAR = 1`,
day within the month, seconds below 60; the regex already bounds month,
hour and minute). -/
def strptimeZ (cs : List Char) : Option (ℕ × ℕ × ℕ × ℕ × ℕ × ℕ) :=
  match strptimeMatch cs with
  | none => none
  | some (y, mo, d, h, mi, sec) =>
    if 1 ≤ y ∧ d ≤ daysInMonth y mo ∧ sec ≤ 59 then some (y, mo, d, h, mi, sec)
    else none

/-- Two-digit zero-padded decimal rendering. -/
def pad2 (n : ℕ) : List Char := [Nat.digitChar (n / 10 % 10), Nat.digitChar (n % 10)]

/-- Four-digit zero-padded decimal rendering. -/
def pad4 (n : ℕ) : List Char :=
  [Nat.digitChar (n / 1000 % 10), Nat.digitChar (n / 100 % 10),
   Nat.digitChar (n / 10 % 10), Nat.digitChar (n % 10)]

/-- `date.strftime("%Y-%m-%d")`. -/
def formatDate (y m d : ℕ) : String :=
  String.mk (pad4 y ++ '-' :: (pad2 m ++ '-' :: pad2 d))

/-- `remove_time_information(date_string)` (plot_stats.py lines 25-41):
parse with `strptime`, drop the time via `.date()`, and render with
`strftime("%Y-%m-%d")`; a parse or validation failure is the propagated
`ValueError`. -/
def remove_time_information (s : String) : Except String String :=
  match strptimeZ s.data with
  | some (y, mo, d, _, _, _) => .ok (formatDate y mo d)
  | none => .error "ValueError"

/-- A date-time string in the exact zero-padded format
`%Y-%m-%dT%H:%M:%SZ` of the claim (e.g. `2022-10-03T00:00:00Z`). -/
def strictDateString (y mo d h mi sec : ℕ) : String :=
  String.mk (pad4 y ++ '-' :: (pad2 mo ++ '-' :: (pad2 d ++ 'T' ::
    (pad2 h ++ ':' :: (pad2 mi ++ ':' :: (pad2 sec ++ ['Z']))))))

/-- The component ranges that make `strictDateString` a well-formed
date-time of the claimed format. -/
def ValidDateTime (y mo d h mi sec : ℕ) : Prop :=
  1 ≤ y ∧ y ≤ 9999 ∧ 1 ≤ mo ∧ mo ≤ 12 ∧ 1 ≤ d ∧ d ≤ daysInMonth y mo ∧
    h ≤ 23 ∧ mi ≤ 59 ∧ sec ≤ 59

instance (y mo d h mi sec : ℕ) : Decidable (ValidDateTime y mo d h mi sec) := by
  unfold ValidDateTime; infer_instance

/-! ## `statistics/analysis_tools/plot_stats.py`: `stats_analysis`

The current working directory is modelled as a list of file names, each
zip file carrying its archive listing and the parsed content of its
`data/views.json` member.  The observable outcome of a run is the list of
plot files saved by `plt.savefig`, or the first exception raised.
Numeric plot payloads (the bar heights handed to matplotlib) do not
affect which files are written and are not tracked; the control flow,
including every exception source on the way, is. -/

/-- The exceptions the script can propagate. -/
inductive PyErr where
  | fileNotFoundError
  | badZipFile
  | indexError
  | keyError
  | valueError
  deriving DecidableEq, Repr

/-- One `{"timestamp": ..., "count": ..., "uniques": ...}` entry of the
`views` array of a GitHub traffic `views.json`. -/
structure ViewEntry where
  timestamp : String
  count : ℕ
  uniques : ℕ
  deriving DecidableEq, Repr

/-- The parsed content of a `data/views.json` member. -/
structure ViewsJson where
  count : ℕ
  uniques : ℕ
  views : List ViewEntry
  deriving DecidableEq, Repr

/-- The content of a zip archive: its name list and its
`data/views.json` member when present. -/
structure ZipData where
  namelist : List String
  views_json : Option ViewsJson
  deriving DecidableEq, Repr

/-- A directory entry: file name, plus archive content when the file is
a readable zip archive (`none` models a file `zipfile.ZipFile` rejects). -/
structure CwdFile where
  name : String
  zipdata : Option ZipData
  deriving DecidableEq, Repr

/-- The file the script removes unconditionally. -/
def badZipName : String := "vayesta.master.13102022.zip"

/-- `open_zip_files(folder_path)` (plot_stats.py lines 7-23): open every
file whose name ends in `.zip`, in directory-listing order;
`zipfile.ZipFile` raises `BadZipFile` on a non-archive. -/
def open_zip_files (cwd : List CwdFile) : Except PyErr (List (String × ZipData)) :=
  (cwd.filter (fun f => f.name.endsWith ".zip")).mapM fun f =>
    match f.zipdata with
    | some z => .ok (f.name, z)
    | none => .error .badZipFile

/-- `remove_time_information` reused by the plotting helpers: a parse
failure is a `ValueError` propagating out of the loop. -/
def timestampDate (ts : String) : Except PyErr String :=
  match remove_time_information ts with
  | .ok d => .ok d
  | .error _ => .error .valueError

/-- `plot_results(json_data, unique_name)` (plot_stats.py lines 48-77):
walk `json_data["views"]`, stripping every timestamp (any malformed one
raises `ValueError`), then save `<unique_name>.png`. -/
def plot_results (j : ViewsJson) (unique_name : String) : Except PyErr String :=
  match j.views.mapM (fun v => timestampDate v.timestamp) with
  | .error e => .error e
  | .ok _ => .ok (unique_name ++ ".png")

/-- `cumulative_stats(zip_files, f)` (plot_stats.py lines 79-116): read
`count`, `uniques` and the first view's timestamp of every archive
(`views[0]` raises `IndexError` on an empty array, the timestamp strip
may raise `ValueError`), then unpack the sorted pairs — `zip(*[])`
unpacking raises `ValueError` when there are no archives — and save
`cumulative_counts.png`. -/
def cumulative_stats (jsons : List ViewsJson) : Except PyErr (List String) :=
  match jsons.mapM (fun j =>
      match j.views.head? with
      | none => Except.error PyErr.indexError
      | some v0 => timestampDate v0.timestamp) with
  | .error e => .error e
  | .ok times =>
    if times.isEmpty then .error .valueError
    else .ok ["cumulative_counts.png"]

/-- `processing_files(f, unique_name, i)` iterated over all archives
(plot_stats.py lines 118-121 and 142-144). -/
def processing_all (jsons : List ViewsJson) (unique_names : List String) :
    Except PyErr (List String) :=
  (jsons.zip unique_names).mapM fun p => plot_results p.1 p.2

/-- The part of `stats_analysis` after `os.remove` (plot_stats.py lines
132-144): open the zips, index `namelist()[3]` of each (`IndexError` when
the archive has fewer members), open `data/views.json` in each
(`KeyError` when absent), split each file name on `.` and take part 2
(`IndexError` when too short), then plot either cumulatively or one file
per archive. -/
def stats_analysis_rest (cumulative : Bool) (cwd : List CwdFile) :
    Except PyErr (List String) :=
  match open_zip_files cwd with
  | .error e => .error e
  | .ok zips =>
    match zips.mapM (fun z => match z.2.namelist.get? 3 with
        | some m => Except.ok m
        | none => Except.error PyErr.indexError) with
    | .error e => .error e
    | .ok _files_zip =>
      match zips.mapM (fun z => match z.2.views_json with
          | some j => Except.ok j
          | none => Except.error PyErr.keyError) with
      | .error e => .error e
      | .ok jsons =>
        match zips.mapM (fun z => match (z.1.splitOn ".").get? 2 with
            | some u => Except.ok u
            | none => Except.error PyErr.indexError) with
        | .error e => .error e
        | .ok unique_names =>
          if cumulative then cumulative_stats jsons
          else processing_all jsons unique_names

/-- `stats_analysis(cumulative=True)` (plot_stats.py lines 123-144):
`os.remove` the file `vayesta.master.13102022.zip` from the current
working directory — `FileNotFoundError` when it is absent — and only
then open and process the zip files. -/
def stats_analysis (cumulative : Bool) (cwd : List CwdFile) :
    Except PyErr (List String) :=
  if cwd.any (fun f => f.name = badZipName) then
    stats_analysis_rest cumulative (cwd.filter (fun f => ¬ f.name = badZipName))
  else
    .error .fileNotFoundError

/-! ## `vayesta/core/fragmentation/iao.py`: `get_coeff` and `get_virtual_coeff`

Linear algebra is exact, over an arbitrary field; `numpy.linalg.eigh` /
`scipy.linalg.eigh` results enter as oracles together with the
hypotheses making them eigendecompositions.

Two views of the same code are used.  For the orthogonality claim,
matrices over `Fin`-indexed types; the raw IAO coefficients from
`pyscf.lo.iao.iao` are an oracle matrix `c`.  For the column-counting and
error claims, a matrix is its list of columns, so that `np.hstack` is
`++` and the `c[:, mask]` selection is a `filter`. -/

/-- Modelled from the spec: `Fragmentation.get_lowdin_orth_x` (file
`vayesta/core/fragmentation/fragmentation.py`, not under `src/`) — the
Lowdin (symmetric) orthogonalization transform `x = v · diag(e^(-1/2)) · vᵀ`
built from an eigendecomposition `(e, v)` of `m = cᵀ S c`.  The
eigenvalue reciprocal square roots are passed as the function `sinv`. -/
def get_lowdin_orth_x {K : Type} [Field K] {ni : ℕ}
    (v : Matrix (Fin ni) (Fin ni) K) (sinv : Fin ni → K) :
    Matrix (Fin ni) (Fin ni) K :=
  v * Matrix.diagonal sinv * vᵀ

/-- `c_iao = np.dot(c_iao, x)` (iao.py line 44): the Lowdin-orthogonalized
IAO coefficients. -/
def iao_orth {K : Type} [Field K] {na ni : ℕ}
    (c : Matrix (Fin na) (Fin ni) K) (x : Matrix (Fin ni) (Fin ni) K) :
    Matrix (Fin na) (Fin ni) K :=
  c * x

/-- `IAO_Fragmentation.get_virtual_coeff` (iao.py lines 96-136), column
view.  `ev` are the eigenpairs `(e, c[:,i])` of the complement projector
`1 - P_IAO` delivered by `np.linalg.eigh` (one per molecular orbital,
`nmo` in total); `back` is the basis back-transformation
`np.dot(mo_coeff, ·)` of line 133.  The virtual space is spanned by the
eigenvectors with eigenvalue above `0.5`; if their number plus the number
of IAOs does not equal the number of molecular orbitals, the function
raises `RuntimeError`. -/
def get_virtual_coeff {K W E : Type} [LinearOrder K] [OfScientific K]
    (nmo niao : ℕ) (ev : List (K × E)) (back : E → W) :
    Except String (List W) :=
  if (ev.filter fun p => (0.5 : K) < p.1).length + niao = nmo then
    .ok ((ev.filter fun p => (0.5 : K) < p.1).map fun p => back p.2)
  else .error "Incorrect number of remaining virtual orbitals"

/-- `IAO_Fragmentation.get_coeff` (iao.py lines 21-58), column view:
the Lowdin-orthogonalized IAO columns, extended — when `add_virtuals` —
by `np.hstack` with the complement virtual columns from
`get_virtual_coeff`. -/
def get_coeff {K W E : Type} [LinearOrder K] [OfScientific K]
    (nmo : ℕ) (iao_cols : List W) (ev : List (K × E)) (back : E → W)
    (add_virtuals : Bool) : Except String (List W) :=
  if add_virtuals then
    match get_virtual_coeff nmo iao_cols.length ev back with
    | .ok vir => .ok (iao_cols ++ vir)
    | .error m => .error m
  else .ok iao_cols

/-! ## Theorems -/

/-- C4: for every string `solver`, `get_solver_class` returns `CCSDSolver`
iff `solver.upper()` is one of `CCSD`, `CCSD(T)`, `TCCSD`, `FCISolver` iff
it is `FCI`, `EBFCISolver` iff it is `EBFCI`, and raises
`NotImplementedError` for every other string; selection is
case-insensitive (everything is dispatched through `solver.upper()`). -/
theorem claim_C4 (solver : String) :
    (get_solver_class solver = .ok .CCSDSolver ↔
      (solver.toUpper = "CCSD" ∨ solver.toUpper = "CCSD(T)" ∨ solver.toUpper = "TCCSD")) ∧
    (get_solver_class solver = .ok .FCISolver ↔ solver.toUpper = "FCI") ∧
    (get_solver_class solver = .ok .EBFCISolver ↔ solver.toUpper = "EBFCI") ∧
    ((∃ msg, get_solver_class solver = .error msg) ↔
      ¬(solver.toUpper = "CCSD" ∨ solver.toUpper = "CCSD(T)" ∨ solver.toUpper = "TCCSD" ∨
        solver.toUpper = "FCI" ∨ solver.toUpper = "EBFCI")) := by
  unfold get_solver_class
  split_ifs with h1 h2 h3
  · rcases h1 with h | h | h <;> simp [h]
  · simp_all
  · simp_all
  · simp_all

/-- C10: `ClusterSolver.reset` sets `converged` to `False`, `e_corr` to
`0`, `dm1` and `dm2` to `None`, and changes no other attribute; in
particular `wf` and `v_ext` are untouched, so `make_rdm1` and `make_rdm2`
after `reset` still delegate to the previous wavefunction. -/
theorem claim_C10 {V R1 R2 : Type} (s : ClusterSolverState V R1 R2) :
    s.reset = { s with converged := false, e_corr := 0, dm1 := none, dm2 := none } ∧
    s.reset.wf = s.wf ∧
    s.reset.v_ext = s.v_ext ∧
    s.reset.converged = false ∧
    s.reset.e_corr = 0 ∧
    s.reset.dm1 = none ∧
    s.reset.dm2 = none ∧
    s.reset.solver_make_rdm1 = s.solver_make_rdm1 ∧
    s.reset.solver_make_rdm2 = s.solver_make_rdm2 :=
  ⟨rfl, rfl, rfl, rfl, rfl, rfl, rfl, rfl, rfl⟩

/-- C9: with a falsy `mpi`, `scf_with_mpi` returns the mean-field object
unchanged (kernel not replaced, no `with_mpi` attribute); with a truthy
`mpi` it modifies exactly the attributes `kernel` (rebound to the
`mpi_kernel` closure) and `with_mpi` (set to `True`), leaving all other
mean-field state untouched at wrapping time. -/
theorem claim_C9 {K : Type} (wrap : K → K) (mf : MeanField K) :
    scf_with_mpi false wrap mf = mf ∧
    scf_with_mpi true wrap mf
      = { mf with kernel := wrap mf.kernel, with_mpi := some true } ∧
    (scf_with_mpi true wrap mf).converged = mf.converged ∧
    (scf_with_mpi true wrap mf).e_tot = mf.e_tot ∧
    (scf_with_mpi true wrap mf).mo_energy = mf.mo_energy ∧
    (scf_with_mpi true wrap mf).mo_occ = mf.mo_occ ∧
    (scf_with_mpi true wrap mf).mo_coeff = mf.mo_coeff ∧
    (scf_with_mpi true wrap mf).with_df = mf.with_df ∧
    (scf_with_mpi true wrap mf).kernel = wrap mf.kernel ∧
    (scf_with_mpi true wrap mf).with_mpi = some true :=
  ⟨rfl, rfl, rfl, rfl, rfl, rfl, rfl, rfl, rfl, rfl⟩

/-- On the master rank the local phase of `mpi_kernel` is exactly the
original SCF kernel. -/
theorem mpi_kernel_local_root {K : Type} (scf : SCFOracle K) (root : ℕ)
    (mf : MeanField K) :
    mpi_kernel_local scf root root mf = ((scf.run mf).1, some (scf.run mf).2) := by
  simp [mpi_kernel_local]

/-- On a non-master rank the local phase of `mpi_kernel` returns no
kernel result and can change the mean-field state only in `with_df`
(building the auxiliary cell), preserving `with_df`'s presence. -/
theorem mpi_kernel_local_ne {K : Type} (scf : SCFOracle K) {root r : ℕ}
    (hr : r ≠ root) (mf : MeanField K) :
    ∃ wd : Option DFState,
      mpi_kernel_local scf root r mf = ({ mf with with_df := wd }, none) ∧
      wd.isSome = mf.with_df.isSome := by
  simp only [mpi_kernel_local, if_neg hr]
  obtain ⟨k, wm, cv, et, me, mo, mc, wd⟩ := mf
  cases wd with
  | none => exact ⟨none, rfl, rfl⟩
  | some df =>
    cases hdc : df.auxcell with
    | true => exact ⟨some df, by simp [hdc], rfl⟩
    | false => exact ⟨some { df with auxcell := true }, by simp [hdc], rfl⟩

/-- The local phase on a non-master rank never invokes the SCF kernel:
it is the same function for any two SCF oracles. -/
theorem mpi_kernel_local_indep {K : Type} (scf scf' : SCFOracle K) {root r : ℕ}
    (hr : r ≠ root) (mf : MeanField K) :
    mpi_kernel_local scf root r mf = mpi_kernel_local scf' root r mf := by
  simp only [mpi_kernel_local, if_neg hr]

/-- C3: for a truthy `mpi`, the `mpi_kernel` installed by `scf_with_mpi`
runs the original SCF kernel only on the rank equal to `mpi_rank` (every
other rank's pre-barrier phase is independent of the SCF kernel and
leaves the SCF results untouched), and after the barrier the kernel
return value and the attributes `converged`, `e_tot`, `mo_energy`,
`mo_occ`, `mo_coeff` (and `with_df._cderi` when present) are broadcast
from the master, so every rank ends with mean-field results identical to
the master's.  `hdf` states that `with_df` is present on the same ranks
as on the master (pyscf's collective `bcast` calls require this). -/
theorem claim_C3 {K : Type} (scf : SCFOracle K) (root : ℕ) (states : ℕ → MeanField K)
    (hdf : ∀ r, r ≠ root →
      (states r).with_df.isSome = ((scf.run (states root)).1.with_df).isSome) :
    ∀ r,
      (∀ scf' : SCFOracle K, r ≠ root →
        mpi_kernel_local scf root r (states r) = mpi_kernel_local scf' root r (states r)) ∧
      (r ≠ root →
        (mpi_kernel_local scf root r (states r)).2 = none ∧
        (mpi_kernel_local scf root r (states r)).1.converged = (states r).converged ∧
        (mpi_kernel_local scf root r (states r)).1.e_tot = (states r).e_tot ∧
        (mpi_kernel_local scf root r (states r)).1.mo_energy = (states r).mo_energy ∧
        (mpi_kernel_local scf root r (states r)).1.mo_occ = (states r).mo_occ ∧
        (mpi_kernel_local scf root r (states r)).1.mo_coeff = (states r).mo_coeff) ∧
      (mpi_kernel_step scf root states r).2 = some (scf.run (states root)).2 ∧
      (mpi_kernel_step scf root states r).1.converged = (scf.run (states root)).1.converged ∧
      (mpi_kernel_step scf root states r).1.e_tot = (scf.run (states root)).1.e_tot ∧
      (mpi_kernel_step scf root states r).1.mo_energy = (scf.run (states root)).1.mo_energy ∧
      (mpi_kernel_step scf root states r).1.mo_occ = (scf.run (states root)).1.mo_occ ∧
      (mpi_kernel_step scf root states r).1.mo_coeff = (scf.run (states root)).1.mo_coeff ∧
      (mpi_kernel_step scf root states r).1.with_df.map DFState._cderi
        = ((scf.run (states root)).1.with_df).map DFState._cderi := by
  intro r
  by_cases hr : r = root
  · subst hr
    refine ⟨fun scf' h => absurd rfl h, fun h => absurd rfl h, ?_⟩
    simp only [mpi_kernel_step, mpi_kernel_local_root, mpi_kernel_bcast]
    cases h : (scf.run (states r)).1.with_df <;> simp [h]
  · obtain ⟨wd, hw, hws⟩ := mpi_kernel_local_ne scf hr (states r)
    refine ⟨fun scf' _ => mpi_kernel_local_indep scf scf' hr (states r), fun _ => ?_, ?_⟩
    · rw [hw]
      exact ⟨rfl, rfl, rfl, rfl, rfl, rfl⟩
    · have hsome : wd.isSome = ((scf.run (states root)).1.with_df).isSome :=
        hws.trans (hdf r hr)
      simp only [mpi_kernel_step, mpi_kernel_local_root, hw, mpi_kernel_bcast]
      cases hwd : wd <;> cases hm : (scf.run (states root)).1.with_df <;> simp_all

/-- Witness for C3 at a concrete two-rank configuration: rank 1 receives
the master's kernel result and converged flag. -/
theorem claim_C3_witness :
    (mpi_kernel_step (K := ℕ) ⟨fun mf => ({ mf with converged := true, e_tot := 7 }, 3)⟩ 0
        (fun _ => ⟨0, none, false, 0, [], [], [], none⟩) 1).2
      = some ((⟨fun mf => ({ mf with converged := true, e_tot := 7 }, 3)⟩ : SCFOracle ℕ).run
          ((fun _ => (⟨0, none, false, 0, [], [], [], none⟩ : MeanField ℕ)) 0)).2 ∧
    (mpi_kernel_step (K := ℕ) ⟨fun mf => ({ mf with converged := true, e_tot := 7 }, 3)⟩ 0
        (fun _ => ⟨0, none, false, 0, [], [], [], none⟩) 1).1.converged
      = ((⟨fun mf => ({ mf with converged := true, e_tot := 7 }, 3)⟩ : SCFOracle ℕ).run
          ((fun _ => (⟨0, none, false, 0, [], [], [], none⟩ : MeanField ℕ)) 0)).1.converged := by
  have h := claim_C3 (K := ℕ) ⟨fun mf => ({ mf with converged := true, e_tot := 7 }, 3)⟩ 0
    (fun _ => ⟨0, none, false, 0, [], [], [], none⟩) (fun _ _ => rfl) 1
  exact ⟨h.2.2.1, h.2.2.2.1⟩

/-- C7: `stats_analysis` removes `vayesta.master.13102022.zip` from the
current working directory before opening any zip file; when that file
does not exist, `os.remove` raises `FileNotFoundError` and the run ends
there (in particular no plot file is saved); when it does exist, the rest
of the analysis runs on the directory with the file removed. -/
theorem claim_C7 (cumulative : Bool) (cwd : List CwdFile) :
    ((¬ ∃ f ∈ cwd, f.name = badZipName) →
      stats_analysis cumulative cwd = .error .fileNotFoundError) ∧
    ((∃ f ∈ cwd, f.name = badZipName) →
      stats_analysis cumulative cwd =
        stats_analysis_rest cumulative (cwd.filter fun f => ¬ f.name = badZipName)) := by
  unfold stats_analysis
  by_cases h : ∃ f ∈ cwd, f.name = badZipName
  · rw [if_pos (by simpa [List.any_eq_true] using h)]
    exact ⟨fun hc => absurd h hc, fun _ => rfl⟩
  · rw [if_neg (by simpa [List.any_eq_true] using h)]
    exact ⟨fun _ => rfl, fun hc => absurd hc h⟩

/-- Witness for C7: in an empty directory `stats_analysis` raises
`FileNotFoundError`; with only the bad zip present, the analysis
continues on the emptied directory (and then fails on the empty-plot
unpacking, as the script does). -/
theorem claim_C7_witness :
    stats_analysis true [] = .error .fileNotFoundError ∧
    stats_analysis true [⟨badZipName, none⟩] =
      stats_analysis_rest true ([⟨badZipName, none⟩].filter fun f => ¬ f.name = badZipName) :=
  ⟨(claim_C7 true []).1 (by simp),
   (claim_C7 true [⟨badZipName, none⟩]).2 ⟨⟨badZipName, none⟩, by simp⟩⟩

/-- A normal return of `get_virtual_coeff` carries exactly
`n(MO) - n(IAO)` virtual columns (stated additively). -/
theorem get_virtual_coeff_ok_length {K W E : Type} [LinearOrder K] [OfScientific K]
    {nmo niao : ℕ} {ev : List (K × E)} {back : E → W} {cols : List W}
    (h : get_virtual_coeff nmo niao ev back = .ok cols) :
    cols.length + niao = nmo := by
  unfold get_virtual_coeff at h
  by_cases hc : (ev.filter fun p => (0.5 : K) < p.1).length + niao = nmo
  · rw [if_pos hc] at h
    cases h
    simpa using hc
  · rw [if_neg hc] at h
    exact absurd h (by simp)

/-- C6: `get_virtual_coeff` raises `RuntimeError` if and only if the
number of eigenvalues of `1 - P_IAO` above one half plus the number of
IAO columns differs from the number of molecular orbitals; on a normal
return, the virtual coefficient matrix has exactly `n(MO) - n(IAO)`
columns. -/
theorem claim_C6 {K W E : Type} [LinearOrder K] [OfScientific K]
    (nmo niao : ℕ) (ev : List (K × E)) (back : E → W) :
    ((∃ msg, get_virtual_coeff nmo niao ev back = .error msg) ↔
      (ev.countP fun p => decide ((0.5 : K) < p.1)) + niao ≠ nmo) ∧
    (∀ cols, get_virtual_coeff nmo niao ev back = .ok cols →
      cols.length = nmo - niao) := by
  constructor
  · rw [List.countP_eq_length_filter]
    unfold get_virtual_coeff
    by_cases hc : (ev.filter fun p => (0.5 : K) < p.1).length + niao = nmo
    · rw [if_pos hc]
      simp [hc]
    · rw [if_neg hc]
      simpa using hc
  · intro cols h
    have := get_virtual_coeff_ok_length h
    omega

/-- Witness for C6 at a one-orbital system over `ℚ`: a single eigenvalue
`1 > 0.5` with no IAOs gives one virtual column, and `1 - 0 = 1`. -/
theorem claim_C6_witness : List.length [()] = 1 - 0 :=
  (claim_C6 (K := ℚ) (W := Unit) (E := Unit) 1 0 [(1, ())] (fun _ => ())).2 [()]
    (by unfold get_virtual_coeff; norm_num)

/-- C2: the IAO coefficients returned by `get_coeff` are orthonormal with
respect to the overlap matrix `S`: with `(e, v)` an eigendecomposition of
`m = c_iaoᵀ S c_iao` (delivered by `scipy.linalg.eigh`, `v` orthogonal,
`e = s²` positive), Lowdin orthogonalization `x = v diag(1/s) vᵀ` gives
`(c_iao x)ᵀ S (c_iao x) = 1`; and with `add_virtuals` every normal return
of `get_coeff` has exactly `n(MO)` columns, the IAO block followed by the
complement virtual block of `get_virtual_coeff`. -/
theorem claim_C2 {K : Type} [Field K] {na ni : ℕ}
    (S : Matrix (Fin na) (Fin na) K) (c : Matrix (Fin na) (Fin ni) K)
    (v : Matrix (Fin ni) (Fin ni) K) (e s : Fin ni → K)
    (hv : vᵀ * v = 1) (hv' : v * vᵀ = 1)
    (hm : cᵀ * S * c = v * Matrix.diagonal e * vᵀ)
    (hs : ∀ i, s i * s i = e i) (hs0 : ∀ i, s i ≠ 0)
    {K' W E : Type} [LinearOrder K'] [OfScientific K']
    (nmo : ℕ) (iao_cols : List W) (ev : List (K' × E)) (back : E → W) :
    (iao_orth c (get_lowdin_orth_x v fun i => (s i)⁻¹))ᵀ * S *
        iao_orth c (get_lowdin_orth_x v fun i => (s i)⁻¹) = 1 ∧
    (∀ cols, get_coeff nmo iao_cols ev back true = .ok cols →
      cols.length = nmo ∧
      ∃ vir, get_virtual_coeff nmo iao_cols.length ev back = .ok vir ∧
        cols = iao_cols ++ vir) := by
  constructor
  · have hD : Matrix.diagonal (fun i => (s i)⁻¹) * Matrix.diagonal e *
        Matrix.diagonal (fun i => (s i)⁻¹) = 1 := by
      rw [Matrix.diagonal_mul_diagonal, Matrix.diagonal_mul_diagonal]
      have he : (fun i => (s i)⁻¹ * e i * (s i)⁻¹) = fun _ => (1 : K) := by
        funext i
        rw [← hs i]
        field_simp [hs0 i]
      rw [he]
      exact Matrix.diagonal_one
    have h1 : ∀ X : Matrix (Fin ni) (Fin ni) K, vᵀ * (v * X) = X := fun X => by
      rw [← Matrix.mul_assoc, hv, Matrix.one_mul]
    have hxT : (v * Matrix.diagonal (fun i => (s i)⁻¹) * vᵀ)ᵀ =
        v * Matrix.diagonal (fun i => (s i)⁻¹) * vᵀ := by
      simp [Matrix.transpose_mul, Matrix.mul_assoc]
    have key : v * Matrix.diagonal (fun i => (s i)⁻¹) * vᵀ *
        (v * Matrix.diagonal e * vᵀ) *
        (v * Matrix.diagonal (fun i => (s i)⁻¹) * vᵀ) = 1 := by
      have h2 : Matrix.diagonal (fun i => (s i)⁻¹) *
          (Matrix.diagonal e *
            (Matrix.diagonal (fun i => (s i)⁻¹) * vᵀ)) = vᵀ := by
        rw [← Matrix.mul_assoc, ← Matrix.mul_assoc, hD, Matrix.one_mul]
      calc v * Matrix.diagonal (fun i => (s i)⁻¹) * vᵀ *
            (v * Matrix.diagonal e * vᵀ) *
            (v * Matrix.diagonal (fun i => (s i)⁻¹) * vᵀ)
          = v * (Matrix.diagonal (fun i => (s i)⁻¹) *
              (vᵀ * (v * (Matrix.diagonal e *
                (vᵀ * (v * (Matrix.diagonal (fun i => (s i)⁻¹) * vᵀ))))))) := by
            simp only [Matrix.mul_assoc]
        _ = v * vᵀ := by rw [h1, h1, h2]
        _ = 1 := hv'
    calc (iao_orth c (get_lowdin_orth_x v fun i => (s i)⁻¹))ᵀ * S *
          iao_orth c (get_lowdin_orth_x v fun i => (s i)⁻¹)
        = (v * Matrix.diagonal (fun i => (s i)⁻¹) * vᵀ)ᵀ * (cᵀ * S * c) *
            (v * Matrix.diagonal (fun i => (s i)⁻¹) * vᵀ) := by
          simp only [iao_orth, get_lowdin_orth_x, Matrix.transpose_mul,
            Matrix.mul_assoc]
      _ = (v * Matrix.diagonal (fun i => (s i)⁻¹) * vᵀ) *
            (v * Matrix.diagonal e * vᵀ) *
            (v * Matrix.diagonal (fun i => (s i)⁻¹) * vᵀ) := by rw [hxT, hm]
      _ = 1 := key
  · intro cols h
    unfold get_coeff at h
    rw [if_pos rfl] at h
    cases hvc : get_virtual_coeff nmo iao_cols.length ev back with
    | error m => rw [hvc] at h; exact absurd h (by simp)
    | ok vir =>
      rw [hvc] at h
      cases h
      have hlen := get_virtual_coeff_ok_length hvc
      refine ⟨?_, vir, rfl, rfl⟩
      simp only [List.length_append]
      omega

/-- Witness for C2 at a one-orbital system over `ℚ` (unit overlap,
trivial eigendecomposition): the orthogonalized coefficients satisfy
`cᵀ S c = 1` and `get_coeff` with virtuals returns one column. -/
theorem claim_C2_witness :
    ((iao_orth (1 : Matrix (Fin 1) (Fin 1) ℚ)
        (get_lowdin_orth_x 1 fun _ => (1 : ℚ)⁻¹))ᵀ * 1 *
      iao_orth 1 (get_lowdin_orth_x 1 fun _ => (1 : ℚ)⁻¹) = 1) ∧
    List.length [()] = 1 := by
  have h := claim_C2 (1 : Matrix (Fin 1) (Fin 1) ℚ) (1 : Matrix (Fin 1) (Fin 1) ℚ)
    1 (fun _ => 1) (fun _ => 1) (by simp) (by simp) (by simp)
    (fun _ => by norm_num) (fun _ => by norm_num)
    1 [()] ([] : List (ℚ × Unit)) (fun _ => ())
  exact ⟨h.1, (h.2 [()] (by unfold get_coeff get_virtual_coeff; norm_num)).1⟩

/-! ### Parsing lemmas for the strict `%Y-%m-%dT%H:%M:%SZ` format -/

/-- Decimal digit characters are digits. -/
theorem digitChar_isDigit {k : ℕ} (h : k < 10) : (Nat.digitChar k).isDigit = true := by
  interval_cases k <;> rfl

/-- `toDigit` inverts `Nat.digitChar` on decimal digits. -/
theorem toDigit_digitChar {k : ℕ} (h : k < 10) : toDigit (Nat.digitChar k) = k := by
  interval_cases k <;> rfl

/-- `%Y` parses a zero-padded four-digit year back to its value. -/
theorem yearAlts_pad4 {y : ℕ} (rest : List Char) (h : y ≤ 9999) :
    yearAlts (pad4 y ++ rest) = [(y, rest)] := by
  have d1 : y / 1000 % 10 < 10 := Nat.mod_lt _ (by norm_num)
  have d2 : y / 100 % 10 < 10 := Nat.mod_lt _ (by norm_num)
  have d3 : y / 10 % 10 < 10 := Nat.mod_lt _ (by norm_num)
  have d4 : y % 10 < 10 := Nat.mod_lt _ (by norm_num)
  show yearAlts (Nat.digitChar (y / 1000 % 10) :: Nat.digitChar (y / 100 % 10) ::
    Nat.digitChar (y / 10 % 10) :: Nat.digitChar (y % 10) :: rest) = [(y, rest)]
  simp only [yearAlts, digitChar_isDigit d1, digitChar_isDigit d2,
    digitChar_isDigit d3, digitChar_isDigit d4, Bool.and_self, if_true,
    toDigit_digitChar d1, toDigit_digitChar d2, toDigit_digitChar d3,
    toDigit_digitChar d4]
  have : ((y / 1000 % 10 * 10 + y / 100 % 10) * 10 + y / 10 % 10) * 10 + y % 10 = y := by
    omega
  rw [this]

/-- `%m` on a zero-padded month: the first surviving alternative is the
month itself with the rest of the input untouched. -/
theorem monthAlts_pad2 {m : ℕ} (rest : List Char) (h1 : 1 ≤ m) (h2 : m ≤ 12) :
    ∃ tail, monthAlts (pad2 m ++ rest) = (m, rest) :: tail := by
  interval_cases m <;> exact ⟨_, rfl⟩

/-- `%d` on a zero-padded day. -/
theorem dayAlts_pad2 {d : ℕ} (rest : List Char) (h1 : 1 ≤ d) (h2 : d ≤ 31) :
    ∃ tail, dayAlts (pad2 d ++ rest) = (d, rest) :: tail := by
  interval_cases d <;> exact ⟨_, rfl⟩

/-- `%H` on a zero-padded hour. -/
theorem hourAlts_pad2 {h : ℕ} (rest : List Char) (h2 : h ≤ 23) :
    ∃ tail, hourAlts (pad2 h ++ rest) = (h, rest) :: tail := by
  interval_cases h <;> exact ⟨_, rfl⟩

/-- `%M` on a zero-padded minute. -/
theorem minuteAlts_pad2 {mi : ℕ} (rest : List Char) (h2 : mi ≤ 59) :
    ∃ tail, minuteAlts (pad2 mi ++ rest) = (mi, rest) :: tail := by
  interval_cases mi <;> exact ⟨_, rfl⟩

/-- `%S` on a zero-padded second. -/
theorem secondAlts_pad2 {sec : ℕ} (rest : List Char) (h2 : sec ≤ 59) :
    ∃ tail, secondAlts (pad2 sec ++ rest) = (sec, rest) :: tail := by
  interval_cases sec <;> exact ⟨_, rfl⟩

/-- A literal of the format consumes its own character. -/
theorem matchLit_cons_self (c : Char) (rest : List Char) :
    matchLit c (c :: rest) = some rest := by
  simp [matchLit]

/-- Backtracking alternation: if the continuation succeeds on the head
alternative, that is the overall result. -/
theorem tryAlts_cons_some {α : Type} {v : ℕ} {rest : List Char} {out : α}
    {tail : List (ℕ × List Char)} {k : ℕ → List Char → Option α}
    (h : k v rest = some out) : tryAlts ((v, rest) :: tail) k = some out := by
  simp [tryAlts, h]

/-- Alternation with a single alternative is just its continuation. -/
theorem tryAlts_singleton {α : Type} (v : ℕ) (rest : List Char)
    (k : ℕ → List Char → Option α) : tryAlts [(v, rest)] k = k v rest := by
  cases h : k v rest <;> simp [tryAlts, h]

/-- The full regex match succeeds on every strict-format string,
capturing exactly its components. -/
theorem strptimeMatch_strict {y mo d h mi sec : ℕ} (hy : y ≤ 9999)
    (hmo1 : 1 ≤ mo) (hmo2 : mo ≤ 12) (hd1 : 1 ≤ d) (hd2 : d ≤ 31)
    (hh : h ≤ 23) (hmi : mi ≤ 59) (hsec : sec ≤ 59) :
    strptimeMatch (strictDateString y mo d h mi sec).data =
      some (y, mo, d, h, mi, sec) := by
  obtain ⟨t2, hmoE⟩ := monthAlts_pad2 ('-' :: (pad2 d ++ 'T' ::
    (pad2 h ++ ':' :: (pad2 mi ++ ':' :: (pad2 sec ++ ['Z']))))) hmo1 hmo2
  obtain ⟨t3, hdE⟩ := dayAlts_pad2 ('T' ::
    (pad2 h ++ ':' :: (pad2 mi ++ ':' :: (pad2 sec ++ ['Z'])))) hd1 hd2
  obtain ⟨t4, hhE⟩ := hourAlts_pad2 (':' ::
    (pad2 mi ++ ':' :: (pad2 sec ++ ['Z']))) hh
  obtain ⟨t5, hmiE⟩ := minuteAlts_pad2 (':' :: (pad2 sec ++ ['Z'])) hmi
  obtain ⟨t6, hsecE⟩ := secondAlts_pad2 ['Z'] hsec
  show strptimeMatch (pad4 y ++ '-' :: (pad2 mo ++ '-' :: (pad2 d ++ 'T' ::
    (pad2 h ++ ':' :: (pad2 mi ++ ':' :: (pad2 sec ++ ['Z'])))))) =
      some (y, mo, d, h, mi, sec)
  unfold strptimeMatch
  rw [yearAlts_pad4 _ hy, tryAlts_singleton, matchLit_cons_self, Option.some_bind,
    hmoE]
  refine tryAlts_cons_some ?_
  rw [matchLit_cons_self, Option.some_bind, hdE]
  refine tryAlts_cons_some ?_
  rw [matchLit_cons_self, Option.some_bind, hhE]
  refine tryAlts_cons_some ?_
  rw [matchLit_cons_self, Option.some_bind, hmiE]
  refine tryAlts_cons_some ?_
  rw [matchLit_cons_self, Option.some_bind, hsecE]
  refine tryAlts_cons_some ?_
  rw [matchLit_cons_self, Option.some_bind]
  rfl

/-- C8 counterexample: `remove_time_information` accepts
`"2022-1-3T0:0:0Z"` — a string not in the exact format
`%Y-%m-%dT%H:%M:%SZ` (it is 15 characters long, the format's strings have
20) — and returns `"2022-01-03"` instead of raising `ValueError`. -/
theorem claim_C8_counterexample :
    remove_time_information "2022-1-3T0:0:0Z" = .ok "2022-01-03" ∧
    (∀ y mo d h mi sec : ℕ, strictDateString y mo d h mi sec ≠ "2022-1-3T0:0:0Z") := by
  constructor
  · rfl
  · intro y mo d h mi sec heq
    have hl : (strictDateString y mo d h mi sec).data.length = 20 := rfl
    rw [heq] at hl
    exact absurd hl (by decide)

/-- C8 (amended): for every string in the exact zero-padded format
`%Y-%m-%dT%H:%M:%SZ` denoting a valid date-time, `remove_time_information`
returns the ten-character date prefix; a `ValueError` is raised exactly
for the strings `strptime` rejects — but `strptime`'s flexible matching
also accepts month, day, hour, minute and second fields without leading
zeros (and case-changed `T`/`Z`), returning the zero-padded reformatted
date for them instead of raising. -/
theorem claim_C8_amended :
    (∀ y mo d h mi sec : ℕ, ValidDateTime y mo d h mi sec →
      remove_time_information (strictDateString y mo d h mi sec) =
        .ok (String.mk ((strictDateString y mo d h mi sec).data.take 10))) ∧
    (∀ s : String,
      remove_time_information s = .error "ValueError" ↔ strptimeZ s.data = none) := by
  constructor
  · intro y mo d h mi sec hv
    obtain ⟨h1, h2, h3, h4, h5, h6, h7, h8, h9⟩ := hv
    have hd31 : d ≤ 31 := by
      refine h6.trans ?_
      unfold daysInMonth
      split_ifs <;> norm_num
    have hz : strptimeZ (strictDateString y mo d h mi sec).data =
        some (y, mo, d, h, mi, sec) := by
      unfold strptimeZ
      rw [strptimeMatch_strict h2 h3 h4 h5 hd31 h7 h8 h9]
      show (if 1 ≤ y ∧ d ≤ daysInMonth y mo ∧ sec ≤ 59 then
        some (y, mo, d, h, mi, sec) else none) = some (y, mo, d, h, mi, sec)
      rw [if_pos ⟨h1, h6, h9⟩]
    unfold remove_time_information
    rw [hz]
    rfl
  · intro s
    unfold remove_time_information
    cases hz : strptimeZ s.data with
    | none => simp
    | some t =>
      obtain ⟨y, mo, d, h, mi, sec⟩ := t
      simp

/-- Witness for the amended C8 at the spec's example date
`2022-10-03T00:00:00Z`. -/
theorem claim_C8_amended_witness :
    remove_time_information (strictDateString 2022 10 3 0 0 0) =
      .ok (String.mk ((strictDateString 2022 10 3 0 0 0).data.take 10)) :=
  claim_C8_amended.1 2022 10 3 0 0 0 (by decide)

/-! ### Lemmas on the chemical-potential kernel -/

/-- `electron_err_core` raises `CptFound` only at a converged chemical
potential whose electron error is within tolerance, recording it in
`cpt_opt`. -/
theorem electron_err_core_cptFound {P : CptProblem} {O : CptOracle} {cpt : ℚ}
    {st st' : CptState}
    (h : electron_err_core P O cpt st = .error (.cptFound, st')) :
    st'.cpt_opt = some cpt ∧ O.conv cpt = true ∧
      |O.ne cpt - P.nelectron| < cptTol P := by
  unfold electron_err_core at h
  by_cases hc : O.conv cpt = true
  · rw [if_pos hc] at h
    by_cases he : |O.ne cpt - P.nelectron| < cptTol P
    · rw [if_pos he] at h
      injection h with h1
      injection h1 with h2 h3
      subst h3
      exact ⟨rfl, hc, he⟩
    · rw [if_neg he] at h
      exact absurd h (by simp)
  · rw [if_neg hc] at h
    injection h with h1
    injection h1 with h2 h3
    exact absurd h2 (by simp)

/-- `electron_err` raises `CptFound` only at a converged chemical
potential within tolerance (the `cpt = 0` shortcut never raises). -/
theorem electron_err_cptFound {P : CptProblem} {O : CptOracle} {cpt : ℚ}
    {st st' : CptState}
    (h : electron_err P O cpt st = .error (.cptFound, st')) :
    st'.cpt_opt = some cpt ∧ O.conv cpt = true ∧
      |O.ne cpt - P.nelectron| < cptTol P := by
  unfold electron_err at h
  split at h
  · split_ifs at h with h0
    exact electron_err_core_cptFound h
  · exact electron_err_core_cptFound h

/-- `CptFound` escaping the interior evaluations of `brentq` marks a
converged, in-tolerance chemical potential. -/
theorem cptEvalSeq_cptFound {P : CptProblem} {O : CptOracle} :
    ∀ {pts : List ℚ} {st st' : CptState},
    cptEvalSeq P O pts st = .error (.cptFound, st') →
    ∃ c, st'.cpt_opt = some c ∧ O.conv c = true ∧
      |O.ne c - P.nelectron| < cptTol P := by
  intro pts
  induction pts with
  | nil =>
    intro st st' h
    exact absurd h (by simp [cptEvalSeq])
  | cons p ps ih =>
    intro st st' h
    unfold cptEvalSeq at h
    cases he : electron_err P O p st with
    | error es =>
      rw [he] at h
      injection h with h1
      subst h1
      exact ⟨p, electron_err_cptFound he⟩
    | ok v =>
      obtain ⟨e1, st1⟩ := v
      rw [he] at h
      exact ih h

/-- `CptFound` escaping `brentq` marks a converged, in-tolerance
chemical potential. -/
theorem cptBrentq_cptFound {P : CptProblem} {O : CptOracle} {a b : ℚ}
    {pts : List ℚ} {st st' : CptState}
    (h : cptBrentq P O a b pts st = .error (.cptFound, st')) :
    ∃ c, st'.cpt_opt = some c ∧ O.conv c = true ∧
      |O.ne c - P.nelectron| < cptTol P := by
  unfold cptBrentq at h
  split at h
  · rename_i es heqa
    injection h with h1
    subst h1
    exact ⟨a, electron_err_cptFound heqa⟩
  · rename_i fa st1 heqa
    split at h
    · rename_i es heqb
      injection h with h1
      subst h1
      exact ⟨b, electron_err_cptFound heqb⟩
    · rename_i fb st2 heqb
      split_ifs at h with h1 h2 h3 <;>
        first
        | (simp at h; done)
        | (split at h
           all_goals first
             | (simp at h; done)
             | (rename_i es heqs
                injection h with h4
                subst h4
                exact cptEvalSeq_cptFound heqs))

/-- A normal return of the retry loop comes from a `CptFound` break, so
its final state records a converged, in-tolerance chemical potential. -/
theorem cptTryLoop_ok {P : CptProblem} {O : CptOracle} {pts : ℕ → List ℚ} :
    ∀ {n : ℕ} {bounds : ℚ × ℚ} {st : CptState} {r : Option Unit} {st' : CptState},
    cptTryLoop P O pts n bounds st = .ok (r, st') →
    ∃ c, st'.cpt_opt = some c ∧ O.conv c = true ∧
      |O.ne c - P.nelectron| < cptTol P := by
  intro n
  induction n with
  | zero =>
    intro bounds st r st' h
    exact absurd h (by simp [cptTryLoop])
  | succ n ih =>
    intro bounds st r st' h
    obtain ⟨a, b⟩ := bounds
    unfold cptTryLoop at h
    cases hb : cptBrentq P O a b (pts n) { st with nbrentq := st.nbrentq + 1 } with
    | ok v =>
      rw [hb] at h
      exact absurd h (by simp)
    | error es =>
      obtain ⟨exc, st1⟩ := es
      rw [hb] at h
      cases exc with
      | cptFound =>
        injection h with h1
        injection h1 with h2 h3
        subst h3
        exact cptBrentq_cptFound hb
      | valueError => exact ih h
      | convergenceError => exact ih h
      | runtimeError => exact absurd h (by simp)

/-- C1: the kernel installed by `optimize_cpt` returns normally only
after finding a chemical potential `c` at which the solver converged and
the fragment electron number satisfies
`|ne_frag - nelectron| < atol + rtol*nelectron`; and when the very first
evaluation at `cpt_guess` already meets the tolerance, the kernel returns
immediately — one solver evaluation, no `brentq` root search. -/
theorem claim_C1 :
    (∀ (P : CptProblem) (O : CptOracle) (pts : ℕ → List ℚ)
        (r : Option Unit) (st : CptState),
      cptKernel P O pts = .ok (r, st) →
      ∃ c, st.cpt_opt = some c ∧ O.conv c = true ∧
        |O.ne c - P.nelectron| < cptTol P) ∧
    (∀ (P : CptProblem) (O : CptOracle) (pts : ℕ → List ℚ),
      O.conv P.cpt_guess = true →
      |O.ne P.cpt_guess - P.nelectron| < cptTol P →
      cptKernel P O pts = .ok (none,
        { err := some (O.ne P.cpt_guess - P.nelectron), err0 := none,
          cpt_opt := some P.cpt_guess, iterations := 1, nbrentq := 0 })) := by
  constructor
  · intro P O pts r st h
    unfold cptKernel at h
    split at h
    · rename_i st1 heq
      injection h with h1
      injection h1 with h2 h3
      subst h3
      exact ⟨P.cpt_guess, electron_err_cptFound heq⟩
    · rename_i es heq hne
      exact absurd h (by simp)
    · rename_i e0 st1 heq
      exact cptTryLoop_ok h
  · intro P O pts hconv herr
    unfold cptKernel electron_err electron_err_core
    rw [hconv]
    rw [if_pos rfl, if_pos herr]

/-- Witness for C1: target of 2 electrons, solver always converged with
exactly 2 fragment electrons — the kernel returns at once with
`cpt_opt = cpt_guess`, one iteration and no `brentq` call. -/
theorem claim_C1_witness :
    cptKernel ⟨2, 1/10, 0, 0, 1⟩ ⟨fun _ => true, fun _ => 2⟩ (fun _ => []) =
      .ok (none, { err := some ((2 : ℚ) - 2), err0 := none,
                   cpt_opt := some 0, iterations := 1, nbrentq := 0 }) ∧
    ∃ c, ({ err := some ((2 : ℚ) - 2), err0 := none, cpt_opt := some 0,
            iterations := 1, nbrentq := 0 } : CptState).cpt_opt = some c ∧
      (⟨fun _ => true, fun _ => 2⟩ : CptOracle).conv c = true ∧
      |(⟨fun _ => true, fun _ => 2⟩ : CptOracle).ne c -
          (⟨2, 1/10, 0, 0, 1⟩ : CptProblem).nelectron| <
        cptTol ⟨2, 1/10, 0, 0, 1⟩ := by
  have hb := claim_C1.2 ⟨2, 1/10, 0, 0, 1⟩ ⟨fun _ => true, fun _ => 2⟩ (fun _ => [])
    rfl (by norm_num [cptTol])
  exact ⟨hb, claim_C1.1 _ _ _ _ _ hb⟩

/-- `electron_err` never invokes `brentq`: the ghost counter is unchanged
on a normal return. -/
theorem electron_err_nbrentq_ok {P : CptProblem} {O : CptOracle} {cpt : ℚ}
    {st : CptState} {e : ℚ} {st' : CptState}
    (h : electron_err P O cpt st = .ok (e, st')) : st'.nbrentq = st.nbrentq := by
  unfold electron_err electron_err_core at h
  split at h <;> split_ifs at h <;>
    first
    | (simp at h; done)
    | (injection h with h1; injection h1 with h2 h3; subst h3; rfl)

/-- `electron_err` leaves the `brentq` counter unchanged on an
exceptional return as well. -/
theorem electron_err_nbrentq_err {P : CptProblem} {O : CptOracle} {cpt : ℚ}
    {st : CptState} {ex : CptExc} {st' : CptState}
    (h : electron_err P O cpt st = .error (ex, st')) : st'.nbrentq = st.nbrentq := by
  unfold electron_err electron_err_core at h
  split at h <;> split_ifs at h <;>
    first
    | (simp at h; done)
    | (injection h with h1; injection h1 with h2 h3; subst h3; rfl)

/-- The interior `brentq` evaluations leave the `brentq` counter
unchanged. -/
theorem cptEvalSeq_nbrentq {P : CptProblem} {O : CptOracle} :
    ∀ (pts : List ℚ) (st : CptState),
      (∀ st', cptEvalSeq P O pts st = .ok st' → st'.nbrentq = st.nbrentq) ∧
      (∀ ex st', cptEvalSeq P O pts st = .error (ex, st') →
        st'.nbrentq = st.nbrentq) := by
  intro pts
  induction pts with
  | nil =>
    intro st
    refine ⟨fun st' h => ?_, fun ex st' h => ?_⟩
    · injection h with h1
      subst h1
      rfl
    · simp [cptEvalSeq] at h
  | cons p ps ih =>
    intro st
    refine ⟨fun st' h => ?_, fun ex st' h => ?_⟩
    · unfold cptEvalSeq at h
      split at h
      · simp at h
      · rename_i e1 st1 heq
        rw [(ih st1).1 st' h, electron_err_nbrentq_ok heq]
    · unfold cptEvalSeq at h
      split at h
      · rename_i es heq
        injection h with h1
        subst h1
        exact electron_err_nbrentq_err heq
      · rename_i e1 st1 heq
        rw [(ih st1).2 ex st' h, electron_err_nbrentq_ok heq]

/-- A single `brentq` call leaves the counter where it was at entry
(the caller bumps it). -/
theorem cptBrentq_nbrentq {P : CptProblem} {O : CptOracle} {a b : ℚ}
    {pts : List ℚ} {st : CptState} :
    (∀ rb st', cptBrentq P O a b pts st = .ok (rb, st') →
      st'.nbrentq = st.nbrentq) ∧
    (∀ ex st', cptBrentq P O a b pts st = .error (ex, st') →
      st'.nbrentq = st.nbrentq) := by
  refine ⟨fun rb st' h => ?_, fun ex st' h => ?_⟩ <;>
  · unfold cptBrentq at h
    split at h
    · rename_i es heqa
      first
      | (simp at h; done)
      | (injection h with h1; subst h1; exact electron_err_nbrentq_err heqa)
    · rename_i fa st1 heqa
      split at h
      · rename_i es heqb
        first
        | (simp at h; done)
        | (injection h with h1; subst h1;
           rw [electron_err_nbrentq_err heqb, electron_err_nbrentq_ok heqa])
      · rename_i fb st2 heqb
        split_ifs at h with h1 h2 h3 <;>
          first
          | (simp at h; done)
          | (injection h with h1'; injection h1' with h3' h4'; subst h4';
             rw [electron_err_nbrentq_ok heqb, electron_err_nbrentq_ok heqa])
          | (split at h
             all_goals first
               | (simp at h; done)
               | (rename_i heqs
                  injection h with h1'
                  subst h1'
                  rw [(cptEvalSeq_nbrentq pts st2).2 _ _ heqs,
                      electron_err_nbrentq_ok heqb,
                      electron_err_nbrentq_ok heqa])
               | (rename_i heqs
                  injection h with h1'
                  injection h1' with h3' h4'
                  subst h4'
                  rw [(cptEvalSeq_nbrentq pts st2).1 _ heqs,
                      electron_err_nbrentq_ok heqb,
                      electron_err_nbrentq_ok heqa]))

/-- Unfolding of one iteration of the retry loop. -/
theorem cptTryLoop_succ (P : CptProblem) (O : CptOracle) (pts : ℕ → List ℚ)
    (n : ℕ) (a b : ℚ) (st : CptState) :
    cptTryLoop P O pts (n + 1) (a, b) st =
      match cptBrentq P O a b (pts n) { st with nbrentq := st.nbrentq + 1 } with
      | .ok (_, st') => .error (.runtimeError, st')
      | .error (.cptFound, st') => .ok (none, st')
      | .error (.valueError, st') => cptTryLoop P O pts n (2 * a, 2 * b) st'
      | .error (.convergenceError, st') => cptTryLoop P O pts n (a / 2, b / 2) st'
      | .error (e, st') => .error (e, st') := rfl

/-- The retry loop performs at most one `brentq` call per remaining try:
the final counter is bounded by the entry counter plus the fuel. -/
theorem cptTryLoop_nbrentq {P : CptProblem} {O : CptOracle} {pts : ℕ → List ℚ} :
    ∀ (n : ℕ) (bounds : ℚ × ℚ) (st : CptState),
      (cptFinalState (cptTryLoop P O pts n bounds st)).nbrentq ≤ st.nbrentq + n := by
  intro n
  induction n with
  | zero =>
    intro bounds st
    simp [cptTryLoop, cptFinalState]
  | succ n ih =>
    intro bounds st
    obtain ⟨a, b⟩ := bounds
    cases hb : cptBrentq P O a b (pts n) { st with nbrentq := st.nbrentq + 1 } with
    | ok v =>
      obtain ⟨rb, st1⟩ := v
      have h1 : st1.nbrentq = st.nbrentq + 1 := cptBrentq_nbrentq.1 rb st1 hb
      have h2 : cptTryLoop P O pts (n + 1) (a, b) st = .error (.runtimeError, st1) := by
        rw [cptTryLoop_succ, hb]
      rw [h2]
      simp only [cptFinalState]
      omega
    | error es =>
      obtain ⟨exc, st1⟩ := es
      have h1 : st1.nbrentq = st.nbrentq + 1 := cptBrentq_nbrentq.2 exc st1 hb
      cases exc with
      | cptFound =>
        have h2 : cptTryLoop P O pts (n + 1) (a, b) st = .ok (none, st1) := by
          rw [cptTryLoop_succ, hb]
        rw [h2]
        simp only [cptFinalState]
        omega
      | valueError =>
        have h2 : cptTryLoop P O pts (n + 1) (a, b) st =
            cptTryLoop P O pts n (2 * a, 2 * b) st1 := by
          rw [cptTryLoop_succ, hb]
        rw [h2]
        have h3 := ih (2 * a, 2 * b) st1
        omega
      | convergenceError =>
        have h2 : cptTryLoop P O pts (n + 1) (a, b) st =
            cptTryLoop P O pts n (a / 2, b / 2) st1 := by
          rw [cptTryLoop_succ, hb]
        rw [h2]
        have h3 := ih (a / 2, b / 2) st1
        omega
      | runtimeError =>
        have h2 : cptTryLoop P O pts (n + 1) (a, b) st =
            .error (.runtimeError, st1) := by
          rw [cptTryLoop_succ, hb]
        rw [h2]
        simp only [cptFinalState]
        omega

/-- The installed kernel invokes `brentq` at most 5 times, whether it
returns or raises. -/
theorem cptKernel_nbrentq (P : CptProblem) (O : CptOracle) (pts : ℕ → List ℚ) :
    (cptFinalState (cptKernel P O pts)).nbrentq ≤ 5 := by
  cases h0 : electron_err P O P.cpt_guess ⟨none, none, none, 0, 0⟩ with
  | error es =>
    obtain ⟨ex, st1⟩ := es
    have h1 : st1.nbrentq = 0 := electron_err_nbrentq_err h0
    cases ex with
    | cptFound =>
      have h2 : cptKernel P O pts = .ok (none, st1) := by
        unfold cptKernel
        rw [h0]
      rw [h2]
      simp only [cptFinalState]
      omega
    | valueError =>
      have h2 : cptKernel P O pts = .error (.valueError, st1) := by
        unfold cptKernel
        rw [h0]
      rw [h2]
      simp only [cptFinalState]
      omega
    | convergenceError =>
      have h2 : cptKernel P O pts = .error (.convergenceError, st1) := by
        unfold cptKernel
        rw [h0]
      rw [h2]
      simp only [cptFinalState]
      omega
    | runtimeError =>
      have h2 : cptKernel P O pts = .error (.runtimeError, st1) := by
        unfold cptKernel
        rw [h0]
      rw [h2]
      simp only [cptFinalState]
      omega
  | ok v =>
    obtain ⟨e0, st1⟩ := v
    have h1 : st1.nbrentq = 0 := electron_err_nbrentq_ok h0
    have h2 : cptKernel P O pts = cptTryLoop P O pts 5
        (if e0 < 0 then (P.cpt_guess, P.cpt_guess + P.cpt_radius)
         else (P.cpt_guess - P.cpt_radius, P.cpt_guess))
        { st1 with err0 := some e0 } := by
      unfold cptKernel
      rw [h0]
    rw [h2]
    have h3 := @cptTryLoop_nbrentq P O pts 5
      (if e0 < 0 then (P.cpt_guess, P.cpt_guess + P.cpt_radius)
       else (P.cpt_guess - P.cpt_radius, P.cpt_guess))
      { st1 with err0 := some e0 }
    have h4 : ({ st1 with err0 := some e0 } : CptState).nbrentq = 0 := h1
    omega

/-- A normal return of `electron_err` leaves only out-of-tolerance
errors recorded in the state. -/
theorem electron_err_ok_errAbove {P : CptProblem} {O : CptOracle} {cpt : ℚ}
    {st : CptState} {e : ℚ} {st' : CptState}
    (h : electron_err P O cpt st = .ok (e, st'))
    (hst : ∀ x, st.err = some x → cptTol P ≤ |x|) :
    ∀ x, st'.err = some x → cptTol P ≤ |x| := by
  unfold electron_err electron_err_core at h
  split at h <;> split_ifs at h <;>
    first
    | (simp at h; done)
    | (injection h with h1; injection h1 with h2 h3; subst h3;
       first
       | exact hst
       | (intro x hx
          injection hx with hx1
          subst hx1
          exact not_lt.mp (by assumption)))

/-- A non-`CptFound` exception from `electron_err` preserves the
out-of-tolerance property of the recorded error. -/
theorem electron_err_err_errAbove {P : CptProblem} {O : CptOracle} {cpt : ℚ}
    {st : CptState} {ex : CptExc} {st' : CptState}
    (h : electron_err P O cpt st = .error (ex, st'))
    (hex : ex ≠ .cptFound)
    (hst : ∀ x, st.err = some x → cptTol P ≤ |x|) :
    ∀ x, st'.err = some x → cptTol P ≤ |x| := by
  unfold electron_err electron_err_core at h
  split at h <;> split_ifs at h <;>
    first
    | (simp at h; done)
    | (injection h with h1; injection h1 with h2 h3; subst h3;
       first
       | exact hst
       | exact absurd h2.symm hex)

/-- The interior evaluations preserve the out-of-tolerance property
whenever no `CptFound` escapes. -/
theorem cptEvalSeq_errAbove {P : CptProblem} {O : CptOracle} :
    ∀ (pts : List ℚ) (st : CptState),
      (∀ x, st.err = some x → cptTol P ≤ |x|) →
      (∀ st', cptEvalSeq P O pts st = .ok st' →
        ∀ x, st'.err = some x → cptTol P ≤ |x|) ∧
      (∀ ex st', cptEvalSeq P O pts st = .error (ex, st') → ex ≠ .cptFound →
        ∀ x, st'.err = some x → cptTol P ≤ |x|) := by
  intro pts
  induction pts with
  | nil =>
    intro st hst
    refine ⟨fun st' h => ?_, fun ex st' h hex => ?_⟩
    · injection h with h1
      subst h1
      exact hst
    · simp [cptEvalSeq] at h
  | cons p ps ih =>
    intro st hst
    refine ⟨fun st' h => ?_, fun ex st' h hex => ?_⟩
    · unfold cptEvalSeq at h
      split at h
      · simp at h
      · rename_i e1 st1 heq
        exact (ih st1 (electron_err_ok_errAbove heq hst)).1 st' h
    · unfold cptEvalSeq at h
      split at h
      · rename_i es heq
        injection h with h1
        subst h1
        exact electron_err_err_errAbove heq hex hst
      · rename_i e1 st1 heq
        exact (ih st1 (electron_err_ok_errAbove heq hst)).2 ex st' h hex

/-- `brentq` preserves the out-of-tolerance property on every exit that
is not a `CptFound`. -/
theorem cptBrentq_errAbove {P : CptProblem} {O : CptOracle} {a b : ℚ}
    {pts : List ℚ} {st : CptState}
    (hst : ∀ x, st.err = some x → cptTol P ≤ |x|) :
    (∀ rb st', cptBrentq P O a b pts st = .ok (rb, st') →
      ∀ x, st'.err = some x → cptTol P ≤ |x|) ∧
    (∀ ex st', cptBrentq P O a b pts st = .error (ex, st') → ex ≠ .cptFound →
      ∀ x, st'.err = some x → cptTol P ≤ |x|) := by
  constructor
  · intro rb st' h
    unfold cptBrentq at h
    split at h
    · simp at h
    · rename_i fa st1 heqa
      have hst1 := electron_err_ok_errAbove heqa hst
      split at h
      · simp at h
      · rename_i fb st2 heqb
        have hst2 := electron_err_ok_errAbove heqb hst1
        split_ifs at h with h1 h2 h3 <;>
          first
          | (simp at h; done)
          | (injection h with h1'; injection h1' with h3' h4'; subst h4';
             exact hst2)
          | (split at h
             all_goals first
               | (simp at h; done)
               | (rename_i heqs
                  injection h with h1'
                  injection h1' with h3' h4'
                  subst h4'
                  exact (cptEvalSeq_errAbove pts st2 hst2).1 _ heqs))
  · intro ex st' h hex
    unfold cptBrentq at h
    split at h
    · rename_i es heqa
      injection h with h1
      subst h1
      exact electron_err_err_errAbove heqa hex hst
    · rename_i fa st1 heqa
      have hst1 := electron_err_ok_errAbove heqa hst
      split at h
      · rename_i es heqb
        injection h with h1
        subst h1
        exact electron_err_err_errAbove heqb hex hst1
      · rename_i fb st2 heqb
        have hst2 := electron_err_ok_errAbove heqb hst1
        split_ifs at h with h1 h2 h3 <;>
          first
          | (simp at h; done)
          | (injection h with h1'; injection h1' with h3' h4'; subst h4';
             exact hst2)
          | (split at h
             all_goals first
               | (simp at h; done)
               | (rename_i heqs
                  injection h with h1'
                  subst h1'
                  exact (cptEvalSeq_errAbove pts st2 hst2).2 _ _ heqs hex))

/-- Every exceptional exit of the retry loop (in particular the final
`RuntimeError`) leaves the recorded electron error out of tolerance. -/
theorem cptTryLoop_errAbove {P : CptProblem} {O : CptOracle} {pts : ℕ → List ℚ} :
    ∀ (n : ℕ) (bounds : ℚ × ℚ) (st : CptState),
      (∀ x, st.err = some x → cptTol P ≤ |x|) →
      ∀ ex st', cptTryLoop P O pts n bounds st = .error (ex, st') →
        ∀ x, st'.err = some x → cptTol P ≤ |x| := by
  intro n
  induction n with
  | zero =>
    intro bounds st hst ex st' h
    obtain ⟨a, b⟩ := bounds
    rw [show cptTryLoop P O pts 0 (a, b) st = .error (.runtimeError, st) from rfl] at h
    injection h with h1
    injection h1 with h2 h3
    subst h3
    exact hst
  | succ n ih =>
    intro bounds st hst ex st' h
    obtain ⟨a, b⟩ := bounds
    rw [cptTryLoop_succ] at h
    cases hb : cptBrentq P O a b (pts n) { st with nbrentq := st.nbrentq + 1 } with
    | ok v =>
      obtain ⟨rb, st1⟩ := v
      rw [hb] at h
      injection h with h1
      injection h1 with h2 h3
      subst h3
      exact (@cptBrentq_errAbove P O a b (pts n)
        { st with nbrentq := st.nbrentq + 1 } hst).1 rb st1 hb
    | error es =>
      obtain ⟨exc, st1⟩ := es
      rw [hb] at h
      cases exc with
      | cptFound => simp at h
      | valueError =>
        have hinv := (@cptBrentq_errAbove P O a b (pts n)
          { st with nbrentq := st.nbrentq + 1 } hst).2 .valueError st1 hb (by simp)
        exact ih (2 * a, 2 * b) st1 hinv ex st' h
      | convergenceError =>
        have hinv := (@cptBrentq_errAbove P O a b (pts n)
          { st with nbrentq := st.nbrentq + 1 } hst).2 .convergenceError st1 hb (by simp)
        exact ih (a / 2, b / 2) st1 hinv ex st' h
      | runtimeError =>
        have hinv := (@cptBrentq_errAbove P O a b (pts n)
          { st with nbrentq := st.nbrentq + 1 } hst).2 .runtimeError st1 hb (by simp)
        injection h with h1
        injection h1 with h2 h3
        subst h3
        exact hinv

/-- Whenever the installed kernel raises (in particular the
`RuntimeError` cases of C5), the last recorded electron error is at or
above the tolerance. -/
theorem cptKernel_errAbove {P : CptProblem} {O : CptOracle} {pts : ℕ → List ℚ}
    {ex : CptExc} {st' : CptState}
    (h : cptKernel P O pts = .error (ex, st')) :
    ∀ x, st'.err = some x → cptTol P ≤ |x| := by
  have hst0 : ∀ x : ℚ, (⟨none, none, none, 0, 0⟩ : CptState).err = some x →
      cptTol P ≤ |x| := by
    intro x hx
    simp at hx
  cases h0 : electron_err P O P.cpt_guess ⟨none, none, none, 0, 0⟩ with
  | error es =>
    obtain ⟨ex0, st1⟩ := es
    cases ex0 with
    | cptFound =>
      have h2 : cptKernel P O pts = .ok (none, st1) := by
        unfold cptKernel
        rw [h0]
      rw [h2] at h
      simp at h
    | valueError =>
      have h2 : cptKernel P O pts = .error (.valueError, st1) := by
        unfold cptKernel
        rw [h0]
      rw [h2] at h
      injection h with h1
      injection h1 with h2' h3'
      subst h3'
      exact electron_err_err_errAbove h0 (by simp) hst0
    | convergenceError =>
      have h2 : cptKernel P O pts = .error (.convergenceError, st1) := by
        unfold cptKernel
        rw [h0]
      rw [h2] at h
      injection h with h1
      injection h1 with h2' h3'
      subst h3'
      exact electron_err_err_errAbove h0 (by simp) hst0
    | runtimeError =>
      have h2 : cptKernel P O pts = .error (.runtimeError, st1) := by
        unfold cptKernel
        rw [h0]
      rw [h2] at h
      injection h with h1
      injection h1 with h2' h3'
      subst h3'
      exact electron_err_err_errAbove h0 (by simp) hst0
  | ok v =>
    obtain ⟨e0, st1⟩ := v
    have hst1 := electron_err_ok_errAbove h0 hst0
    have h2 : cptKernel P O pts = cptTryLoop P O pts 5
        (if e0 < 0 then (P.cpt_guess, P.cpt_guess + P.cpt_radius)
         else (P.cpt_guess - P.cpt_radius, P.cpt_guess))
        { st1 with err0 := some e0 } := by
      unfold cptKernel
      rw [h0]
    rw [h2] at h
    exact cptTryLoop_errAbove 5
      (if e0 < 0 then (P.cpt_guess, P.cpt_guess + P.cpt_radius)
       else (P.cpt_guess - P.cpt_radius, P.cpt_guess))
      { st1 with err0 := some e0 } hst1 ex st' h

/-- C5: the installed kernel attempts the Brent bracket search at most 5
times; a `ValueError` from `brentq` (root not bracketed) doubles both
interval bounds before the retry, a `ConvergenceError` halves them; an
exhausted loop raises `RuntimeError`; a `brentq` call that returns
normally (reporting convergence without the tolerance having been met)
raises `RuntimeError`; and on every `RuntimeError` exit the recorded
electron error is still at or above the tolerance. -/
theorem claim_C5 :
    (∀ (P : CptProblem) (O : CptOracle) (pts : ℕ → List ℚ),
      (cptFinalState (cptKernel P O pts)).nbrentq ≤ 5) ∧
    (∀ (P : CptProblem) (O : CptOracle) (pts : ℕ → List ℚ) (n : ℕ) (a b : ℚ)
        (st st' : CptState),
      cptBrentq P O a b (pts n) { st with nbrentq := st.nbrentq + 1 } =
          .error (.valueError, st') →
      cptTryLoop P O pts (n + 1) (a, b) st =
        cptTryLoop P O pts n (2 * a, 2 * b) st') ∧
    (∀ (P : CptProblem) (O : CptOracle) (pts : ℕ → List ℚ) (n : ℕ) (a b : ℚ)
        (st st' : CptState),
      cptBrentq P O a b (pts n) { st with nbrentq := st.nbrentq + 1 } =
          .error (.convergenceError, st') →
      cptTryLoop P O pts (n + 1) (a, b) st =
        cptTryLoop P O pts n (a / 2, b / 2) st') ∧
    (∀ (P : CptProblem) (O : CptOracle) (pts : ℕ → List ℚ) (bounds : ℚ × ℚ)
        (st : CptState),
      cptTryLoop P O pts 0 bounds st = .error (.runtimeError, st)) ∧
    (∀ (P : CptProblem) (O : CptOracle) (pts : ℕ → List ℚ) (n : ℕ) (a b : ℚ)
        (st : CptState) (rb : ℚ × Bool) (st' : CptState),
      cptBrentq P O a b (pts n) { st with nbrentq := st.nbrentq + 1 } =
          .ok (rb, st') →
      cptTryLoop P O pts (n + 1) (a, b) st = .error (.runtimeError, st')) ∧
    (∀ (P : CptProblem) (O : CptOracle) (pts : ℕ → List ℚ) (st' : CptState),
      cptKernel P O pts = .error (.runtimeError, st') →
      ∀ x, st'.err = some x → cptTol P ≤ |x|) := by
  refine ⟨cptKernel_nbrentq, ?_, ?_, ?_, ?_, ?_⟩
  · intro P O pts n a b st st' h
    rw [cptTryLoop_succ, h]
  · intro P O pts n a b st st' h
    rw [cptTryLoop_succ, h]
  · intro P O pts bounds st
    obtain ⟨a, b⟩ := bounds
    rfl
  · intro P O pts n a b st rb st' h
    rw [cptTryLoop_succ, h]
  · intro P O pts st' h
    exact cptKernel_errAbove h

/-- Witness for C5: concrete oracles exercising each clause — a constant
electron surplus (unbracketed root: `ValueError`, bounds doubling, final
`RuntimeError` with error `1` still above tolerance `1/10`), a
never-converging solver (`ConvergenceError`, bounds halving), and a
sign-changing error with no in-tolerance point (`brentq` converges, the
kernel raises `RuntimeError`). -/
theorem claim_C5_witness :
    (cptFinalState (cptKernel ⟨2, 1, 0, 0, 1⟩ ⟨fun _ => true, fun _ => 3⟩
        (fun _ => []))).nbrentq ≤ 5 ∧
    cptTryLoop ⟨2, 1, 0, 0, 1⟩ ⟨fun _ => true, fun _ => 3⟩ (fun _ => [])
        1 (0, 1) ⟨none, none, none, 0, 0⟩ =
      cptTryLoop ⟨2, 1, 0, 0, 1⟩ ⟨fun _ => true, fun _ => 3⟩ (fun _ => [])
        0 (2 * 0, 2 * 1) ⟨some 1, none, none, 2, 1⟩ ∧
    cptTryLoop ⟨2, 1, 0, 0, 1⟩ ⟨fun c => decide (c = 1), fun _ => 3⟩ (fun _ => [])
        1 (0, 1) ⟨none, none, none, 0, 0⟩ =
      cptTryLoop ⟨2, 1, 0, 0, 1⟩ ⟨fun c => decide (c = 1), fun _ => 3⟩ (fun _ => [])
        0 (0 / 2, 1 / 2) ⟨none, none, none, 0, 1⟩ ∧
    cptTryLoop ⟨2, 1, 0, 0, 1⟩ ⟨fun _ => true, fun _ => 3⟩ (fun _ => [])
        0 (5, 7) ⟨none, none, none, 0, 0⟩ =
      .error (.runtimeError, ⟨none, none, none, 0, 0⟩) ∧
    cptKernel ⟨2, 1, 0, 0, 1⟩ ⟨fun _ => true, fun c => if c = 0 then 3 else 1⟩
        (fun _ => []) =
      .error (.runtimeError, ⟨some (-1), some 1, none, 2, 1⟩) ∧
    cptTol ⟨2, 1, 0, 0, 1⟩ ≤ |(-1 : ℚ)| := by
  have h1 : electron_err ⟨2, 1, 0, 0, 1⟩
      ⟨fun _ => true, fun c => if c = 0 then 3 else 1⟩ 0 ⟨none, none, none, 0, 0⟩ =
      .ok (1, ⟨some 1, none, none, 1, 0⟩) := by
    norm_num [electron_err, electron_err_core, cptTol]
  have h2 : cptKernel ⟨2, 1, 0, 0, 1⟩
      ⟨fun _ => true, fun c => if c = 0 then 3 else 1⟩ (fun _ => []) =
      cptTryLoop ⟨2, 1, 0, 0, 1⟩ ⟨fun _ => true, fun c => if c = 0 then 3 else 1⟩
        (fun _ => []) 5 (0 - 1, 0) ⟨some 1, some 1, none, 1, 0⟩ := by
    unfold cptKernel
    rw [h1]
    norm_num
  have h3 : cptBrentq ⟨2, 1, 0, 0, 1⟩
      ⟨fun _ => true, fun c => if c = 0 then 3 else 1⟩ (0 - 1) 0
      ((fun _ : ℕ => ([] : List ℚ)) 4) ⟨some 1, some 1, none, 1, 1⟩ =
      .ok ((0 - 1, true), ⟨some (-1), some 1, none, 2, 1⟩) := by
    norm_num [cptBrentq, electron_err, electron_err_core, cptEvalSeq, cptTol]
  have hker : cptKernel ⟨2, 1, 0, 0, 1⟩
      ⟨fun _ => true, fun c => if c = 0 then 3 else 1⟩ (fun _ => []) =
      .error (.runtimeError, ⟨some (-1), some 1, none, 2, 1⟩) := by
    rw [h2, show (5 : ℕ) = 4 + 1 from rfl]
    exact claim_C5.2.2.2.2.1 ⟨2, 1, 0, 0, 1⟩
      ⟨fun _ => true, fun c => if c = 0 then 3 else 1⟩ (fun _ => [])
      4 (0 - 1) 0 ⟨some 1, some 1, none, 1, 0⟩ (0 - 1, true)
      ⟨some (-1), some 1, none, 2, 1⟩ h3
  refine ⟨claim_C5.1 ⟨2, 1, 0, 0, 1⟩ ⟨fun _ => true, fun _ => 3⟩ (fun _ => []),
    claim_C5.2.1 ⟨2, 1, 0, 0, 1⟩ ⟨fun _ => true, fun _ => 3⟩ (fun _ => [])
      0 0 1 ⟨none, none, none, 0, 0⟩ ⟨some 1, none, none, 2, 1⟩ ?_,
    claim_C5.2.2.1 ⟨2, 1, 0, 0, 1⟩ ⟨fun c => decide (c = 1), fun _ => 3⟩ (fun _ => [])
      0 0 1 ⟨none, none, none, 0, 0⟩ ⟨none, none, none, 0, 1⟩ ?_,
    claim_C5.2.2.2.1 ⟨2, 1, 0, 0, 1⟩ ⟨fun _ => true, fun _ => 3⟩ (fun _ => [])
      (5, 7) ⟨none, none, none, 0, 0⟩,
    hker,
    claim_C5.2.2.2.2.2 ⟨2, 1, 0, 0, 1⟩
      ⟨fun _ => true, fun c => if c = 0 then 3 else 1⟩ (fun _ => [])
      ⟨some (-1), some 1, none, 2, 1⟩ hker (-1) rfl⟩
  · norm_num [cptBrentq, electron_err, electron_err_core, cptEvalSeq, cptTol]
  · norm_num [cptBrentq, electron_err, electron_err_core, cptEvalSeq, cptTol]

end Vayesta
